import Mathlib

/-!
Verification of the resilient intent-analysis engine of the
`universal-orchestration-system` repository (service `intent-processor`).

The Python sources are shallowly embedded as executable Lean definitions:

* `src/services/intent-processor/src/models.py`                  — data model (enums,
  `Task`, `IntentAnalysisResult`, `TaskBreakdown`, `ValidationResult`; the pydantic
  field validators become smart constructors returning `Option`);
* `src/services/intent-processor/src/utils/resilience.py`        — `CircuitBreaker`,
  `retry_with_backoff`, `RateLimiter`;
* `src/services/intent-processor/src/services/intent_cache.py`   — `IntentCache`;
* `src/services/intent-processor/src/services/thought_stream.py` — `ThoughtStream`;
* `src/services/intent-processor/src/services/robust_intent_analyzer.py`
  — `RobustIntentAnalyzer` (strategy chain, JSON parsing, minimal fallback);
* `src/services/intent-processor/src/services/intent_analyzer.py`
  — `IntentAnalyzer` (`_optimize_task_order`, `validate_tasks`,
  `_has_circular_dependencies`).

Modelling conventions used throughout:

* Python `float` values are modelled as `ℚ` (the claims under study involve no
  floating-point rounding edge cases, only order comparisons and +,-,*,/);
* wall-clock instants (`datetime.now()`, `loop.time()`) are rational numbers in
  seconds passed explicitly to each operation (single-threaded cooperative model);
* exceptions are modelled by `Option`/`Except` return values; a Python function
  whose exceptions are swallowed by a caller becomes a total function returning
  the caller-visible outcome;
* parsed JSON documents (the output of Python `json.loads`) are values of the
  inductive type `JVal`; the network/LLM side that produces the raw text is an
  oracle input to the analyzer.
-/

namespace IntentProc

/-- Values produced by `json.loads` — the shape of data the analyzer's parsing
code receives.  Python `dict`s become association lists of fields (insertion
order preserved, keys unique for genuine dicts). -/
inductive JVal where
  | null : JVal
  | jbool : Bool → JVal
  | num : ℚ → JVal
  | str : String → JVal
  | arr : List JVal → JVal
  | obj : List (String × JVal) → JVal

/-- Field lookup on a JSON object, i.e. Python `dict.get(key, default)`:
first binding wins (a real `dict` has unique keys). -/
def JVal.get (j : JVal) (key : String) (deflt : JVal) : JVal :=
  match j with
  | .obj fields =>
    match fields.find? (fun kv => kv.1 = key) with
    | some kv => kv.2
    | none => deflt
  | _ => deflt

/-- Python `float(x)` applied to a JSON value: numbers convert, booleans convert
(`float(True) = 1.0`), everything else raises (`none`).  (CPython also converts
numeric strings; no claim in this development depends on that case, so the
string case is conservatively mapped to the raising branch.) -/
def JVal.toFloat : JVal → Option ℚ
  | .num q => some q
  | .jbool b => some (if b then 1 else 0)
  | _ => none

/-- A JSON value used where pydantic expects `str`: only a JSON string passes. -/
def JVal.asStr : JVal → Option String
  | .str s => some s
  | _ => none

/-- A JSON value used where pydantic expects `List[str]`. -/
def JVal.asStrList : JVal → Option (List String)
  | .arr xs =>
    xs.foldr (fun x acc => match x.asStr, acc with
      | some s, some l => some (s :: l)
      | _, _ => none) (some [])
  | _ => none

/-- A JSON value used where pydantic expects `Dict[str, Any]`. -/
def JVal.asObj : JVal → Option (List (String × JVal))
  | .obj fields => some fields
  | _ => none

/-! ### models.py — enumerations and pydantic models -/

/-- `IntentType` enum of `models.py`. -/
inductive IntentType where
  | feature_request | bug_fix | refactoring | documentation | testing
  | deployment | configuration | research | unknown
deriving DecidableEq, Repr

/-- The `.value` string of an `IntentType` member. -/
def IntentType.value : IntentType → String
  | .feature_request => "feature_request"
  | .bug_fix => "bug_fix"
  | .refactoring => "refactoring"
  | .documentation => "documentation"
  | .testing => "testing"
  | .deployment => "deployment"
  | .configuration => "configuration"
  | .research => "research"
  | .unknown => "unknown"

/-- Members of `IntentType` in declaration order (Python `for t in IntentType`). -/
def IntentType.members : List IntentType :=
  [.feature_request, .bug_fix, .refactoring, .documentation, .testing,
   .deployment, .configuration, .research, .unknown]

/-- `TaskType` enum of `models.py`. -/
inductive TaskType where
  | frontend | backend | database | api | infrastructure
  | testing | documentation | design | devops | security
deriving DecidableEq, Repr

/-- The `.value` string of a `TaskType` member. -/
def TaskType.value : TaskType → String
  | .frontend => "frontend"
  | .backend => "backend"
  | .database => "database"
  | .api => "api"
  | .infrastructure => "infrastructure"
  | .testing => "testing"
  | .documentation => "documentation"
  | .design => "design"
  | .devops => "devops"
  | .security => "security"

/-- `TaskPriority` enum of `models.py`. -/
inductive TaskPriority where
  | critical | high | medium | low
deriving DecidableEq, Repr

/-- The `.value` string of a `TaskPriority` member. -/
def TaskPriority.value : TaskPriority → String
  | .critical => "critical"
  | .high => "high"
  | .medium => "medium"
  | .low => "low"

/-- `TaskComplexity` enum of `models.py`. -/
inductive TaskComplexity where
  | simple | moderate | complex | very_complex
deriving DecidableEq, Repr

/-- The `.value` string of a `TaskComplexity` member. -/
def TaskComplexity.value : TaskComplexity → String
  | .simple => "simple"
  | .moderate => "moderate"
  | .complex => "complex"
  | .very_complex => "very_complex"

/-- The enum-by-value constructor `IntentType(value)`: succeeds exactly on the
`.value` strings. -/
def IntentType.ofValue? (s : String) : Option IntentType :=
  IntentType.members.find? (fun t => t.value = s)

/-- `TaskType(value)` by-value constructor. -/
def TaskType.ofValue? (s : String) : Option TaskType :=
  [TaskType.frontend, .backend, .database, .api, .infrastructure,
   .testing, .documentation, .design, .devops, .security].find?
    (fun t => t.value = s)

/-- `TaskPriority(value)` by-value constructor. -/
def TaskPriority.ofValue? (s : String) : Option TaskPriority :=
  [TaskPriority.critical, .high, .medium, .low].find? (fun t => t.value = s)

/-- `TaskComplexity(value)` by-value constructor. -/
def TaskComplexity.ofValue? (s : String) : Option TaskComplexity :=
  [TaskComplexity.simple, .moderate, .complex, .very_complex].find?
    (fun t => t.value = s)

/-- The `Task` pydantic model of `models.py`.  The rarely-used
`technical_requirements : Optional[Dict[str, Any]]` field is omitted: it is
never read by any operation modelled here and would obstruct decidable
equality.  `estimated_hours` is `Optional[float]`. -/
structure Task where
  id : String
  title : String
  description : String
  type : TaskType
  priority : TaskPriority := .medium
  complexity : TaskComplexity := .moderate
  estimated_hours : Option ℚ := none
  dependencies : List String := []
  tags : List String := []
  acceptance_criteria : List String := []
deriving DecidableEq, Repr

/-- The `@validator('estimated_hours')` of `Task`: pydantic construction raises
(`none`) when a present estimate is not positive. -/
def Task.mk? (t : Task) : Option Task :=
  match t.estimated_hours with
  | some v => if v ≤ 0 then none else some t
  | none => some t

/-- The `IntentAnalysisResult` pydantic model.  `metadata : Dict[str, Any]`
is an association list of JSON values. -/
structure IntentAnalysisResult where
  intent_type : IntentType
  confidence : ℚ
  summary : String
  tasks : List Task
  metadata : List (String × JVal) := []

/-- The `@validator('confidence')` of `IntentAnalysisResult`: construction
raises (`none`) unless `0 ≤ confidence ≤ 1`. -/
def IntentAnalysisResult.mk? (r : IntentAnalysisResult) : Option IntentAnalysisResult :=
  if 0 ≤ r.confidence ∧ r.confidence ≤ 1 then some r else none

/-- The `TaskBreakdown` pydantic model (`milestones` are opaque JSON objects). -/
structure TaskBreakdown where
  tasks : List Task
  total_estimated_hours : Option ℚ := none
  suggested_order : List String := []
  milestones : List JVal := []

/-- The `ValidationResult` pydantic model. -/
structure ValidationResult where
  is_valid : Bool
  issues : List String := []
  suggestions : List String := []
deriving Repr

/-- `ValidationResult.add_issue`: appends the issue and forces `is_valid = False`. -/
def ValidationResult.add_issue (r : ValidationResult) (issue : String) : ValidationResult :=
  { r with issues := r.issues ++ [issue], is_valid := false }

/-- `ValidationResult.add_suggestion`: appends a suggestion only. -/
def ValidationResult.add_suggestion (r : ValidationResult) (s : String) : ValidationResult :=
  { r with suggestions := r.suggestions ++ [s] }

/-! ### JSON serialization (`json.dumps(·, sort_keys=True)`)

Used by `IntentCache._generate_key`.  Object fields are serialized in
ascending key order at every nesting level, exactly what `sort_keys=True`
does.  String escaping and float formatting are simplified (no claim depends
on the exact rendering of special characters or numbers, only on the
serialization being a deterministic function that sorts keys). -/

/-- Key-ordering relation used to sort serialized object fields. -/
def keyLe (p q : String × String) : Prop := p.1 ≤ q.1

instance : DecidableRel keyLe := fun p q => inferInstanceAs (Decidable (p.1 ≤ q.1))

instance : IsTotal (String × String) keyLe :=
  ⟨fun p q => le_total p.1 q.1⟩

instance : IsTrans (String × String) keyLe :=
  ⟨fun _ _ _ h₁ h₂ => le_trans h₁ h₂⟩

mutual
/-- Serialize a JSON value; object keys are emitted in sorted order
(`sort_keys=True`). -/
def jdump : JVal → String
  | .null => "null"
  | .jbool b => if b then "true" else "false"
  | .num q => toString q
  | .str s => "\"" ++ s ++ "\""
  | .arr xs => "[" ++ String.intercalate ", " (jdumpList xs) ++ "]"
  | .obj fields =>
    "\x7b" ++ String.intercalate ", "
      ((List.insertionSort keyLe (jdumpFields fields)).map
        (fun kv => "\"" ++ kv.1 ++ "\": " ++ kv.2)) ++ "\x7d"

/-- Serialize each element of a JSON array. -/
def jdumpList : List JVal → List String
  | [] => []
  | x :: xs => jdump x :: jdumpList xs

/-- Serialize each field value of a JSON object, keeping its key. -/
def jdumpFields : List (String × JVal) → List (String × String)
  | [] => []
  | kv :: fields => (kv.1, jdump kv.2) :: jdumpFields fields
end

namespace IntentCache

/-- State of an `IntentCache` (`intent_cache.py`).  The service is constructed
with `redis_client = None` whenever Redis is unreachable (`main.py` falls back
to `None`), and `RobustIntentAnalyzer`'s default is also `None`; the embedding
models this `redis_client = None` instance, so only the in-process tier
(`local_cache`, a dict from key to `(result, timestamp)`) is present — with no
Redis client, every `if self.redis_client:` branch of the source is skipped.
`ttl` is kept in seconds (`timedelta(hours=ttl_hours)`). -/
structure State where
  ttl : ℚ
  local_cache : List (String × IntentAnalysisResult × ℚ)

/-- `IntentCache.__init__` with the default `ttl_hours = 24`. -/
def init (ttl_hours : ℚ := 24) : State :=
  { ttl := ttl_hours * 3600, local_cache := [] }

/-- `IntentCache._generate_key`: `md5` of
`f"{text}:{json.dumps(context or {}, sort_keys=True)}"` under the
`intent:cache:` prefix.  The `md5` hex digest is modelled as the identity on
the hashed content: it is a stdlib hash whose only relevant property is that
equal content gives equal keys (collisions are ignored, as in any
content-addressing argument). -/
def generate_key (text : String) (context : List (String × JVal)) : String :=
  "intent:cache:" ++ text ++ ":" ++ jdump (.obj context)

/-- `IntentCache.get` (local tier; `redis_client` is `None`): a fresh local
entry is returned, an expired one is deleted.  `now` is `datetime.utcnow()`. -/
def get (st : State) (text : String) (context : List (String × JVal)) (now : ℚ) :
    Option IntentAnalysisResult × State :=
  let key := generate_key text context
  match st.local_cache.find? (fun e => e.1 = key) with
  | some e =>
    if now - e.2.2 < st.ttl then
      (some e.2.1, st)
    else
      (none, { st with local_cache := st.local_cache.filter (fun e' => ¬ e'.1 = key) })
  | none => (none, st)

/-- `IntentCache.set` (local tier; `redis_client` is `None`): stores
`(result, now)` under the generated key, replacing any previous binding
(Python dict assignment). -/
def set (st : State) (text : String) (result : IntentAnalysisResult)
    (context : List (String × JVal)) (now : ℚ) : State :=
  let key := generate_key text context
  { st with local_cache :=
      (key, result, now) :: st.local_cache.filter (fun e => ¬ e.1 = key) }

end IntentCache

/-! ### utils/resilience.py — circuit breaker, retry with backoff, rate limiter -/

namespace Resilience

/-- The three states of `CircuitBreaker.state` (the Python strings `'closed'`,
`'open'`, `'half-open'`; `opened` stands for `'open'`, which is a reserved word
in Lean). -/
inductive CBState where
  | closed | opened | halfOpen
deriving DecidableEq, Repr

/-- Mutable state of a `CircuitBreaker` instance.  Times are seconds
(`datetime.now()` instants); `last_failure_time = none` is Python `None`. -/
structure CircuitBreaker where
  failure_threshold : ℕ
  recovery_timeout : ℚ
  failure_count : ℕ
  last_failure_time : Option ℚ
  state : CBState
deriving Repr

/-- `CircuitBreaker.__init__`. -/
def CircuitBreaker.init (failure_threshold : ℕ := 5) (recovery_timeout : ℚ := 30) :
    CircuitBreaker :=
  { failure_threshold := failure_threshold, recovery_timeout := recovery_timeout,
    failure_count := 0, last_failure_time := none, state := .closed }

/-- `CircuitBreaker._should_attempt_reset`: true when a failure has been
recorded and strictly more than `recovery_timeout` seconds have passed. -/
def CircuitBreaker.should_attempt_reset (cb : CircuitBreaker) (now : ℚ) : Bool :=
  match cb.last_failure_time with
  | some t => now - t > cb.recovery_timeout
  | none => false

/-- `CircuitBreaker._on_success`: reset the count, close the circuit. -/
def CircuitBreaker.on_success (cb : CircuitBreaker) : CircuitBreaker :=
  { cb with failure_count := 0, state := .closed }

/-- `CircuitBreaker._on_failure`: bump the count, stamp the failure time, open
the circuit once the threshold is reached (otherwise `self.state` is left
unchanged). -/
def CircuitBreaker.on_failure (cb : CircuitBreaker) (now : ℚ) : CircuitBreaker :=
  let fc := cb.failure_count + 1
  { cb with
    failure_count := fc
    last_failure_time := some now
    state := (if cb.failure_threshold ≤ fc then .opened else cb.state) }

/-- Caller-visible outcome of one call through the breaker:
`rejected` = the breaker raised without invoking the wrapped function,
`succeeded`/`failed` = the wrapped function was invoked and returned/raised. -/
inductive CallOutcome where
  | rejected | succeeded | failed
deriving DecidableEq, Repr

/-- One call through the decorated function (`CircuitBreaker.__call__`'s
`wrapper`): `op_succeeds` tells whether the wrapped coroutine would return
normally at this instant (its exception, when it raises, is assumed to match
the default `expected_exception = Exception`). -/
def CircuitBreaker.call (cb : CircuitBreaker) (now : ℚ) (op_succeeds : Bool) :
    CircuitBreaker × CallOutcome :=
  let cb' :=
    if cb.state = .opened then
      if cb.should_attempt_reset now then { cb with state := .halfOpen } else cb
    else cb
  if cb'.state = .opened then
    (cb', .rejected)
  else
    if op_succeeds then (cb'.on_success, .succeeded)
    else (cb'.on_failure now, .failed)

/-- A sequence of calls through the breaker, given the time and the wrapped
operation's behavior for each call; returns the final breaker state and the
outcome of each call. -/
def CircuitBreaker.run (cb : CircuitBreaker) :
    List (ℚ × Bool) → CircuitBreaker × List CallOutcome
  | [] => (cb, [])
  | (now, b) :: rest =>
    let step := cb.call now b
    let tail := step.1.run rest
    (tail.1, step.2 :: tail.2)

/-- Behavior of `retry_with_backoff(retries, backoff_in_seconds, exponential)`
from `resilience.py` applied to an operation: `op k` is the outcome of the
`k`-th invocation (0-based; `Except.error` = the attempt raised one of the
retried exception types).  Returns

* the caller-visible outcome — `some (.ok a)` the wrapped call returned `a`,
  `some (.error e)` the decorator re-raised the final failure, `none` the
  `while retry_count < retries` loop was never entered (with `retries = 0`
  the Python wrapper invokes nothing and implicitly returns `None`);
* the number of times the operation was invoked;
* the list of delays slept between successive attempts (`delay` starts at
  `backoff_in_seconds` and doubles after each sleep when `exponential`).

The helper recursion parameter `remaining = retries - retry_count` counts the
loop iterations still permitted. -/
def retryLoop {E A : Type} (op : ℕ → Except E A) (exponential : Bool) :
    (remaining : ℕ) → (attempt : ℕ) → (delay : ℚ) →
    Option (Except E A) × ℕ × List ℚ
  | 0, _, _ => (none, 0, [])
  | remaining + 1, attempt, delay =>
    match op attempt with
    | .ok a => (some (.ok a), 1, [])
    | .error e =>
      if remaining = 0 then
        -- retry_count has reached retries: re-raise
        (some (.error e), 1, [])
      else
        let rest := retryLoop op exponential remaining (attempt + 1)
          (if exponential then delay * 2 else delay)
        (rest.1, rest.2.1 + 1, delay :: rest.2.2)

/-- `retry_with_backoff` of `resilience.py` (defaults `retries = 3`,
`backoff_in_seconds = 1`, `exponential = True`). -/
def retry_with_backoff {E A : Type} (retries : ℕ) (backoff_in_seconds : ℚ)
    (exponential : Bool) (op : ℕ → Except E A) :
    Option (Except E A) × ℕ × List ℚ :=
  retryLoop op exponential retries 0 backoff_in_seconds

/-- `retry_with_backoff(max_retries, base_delay)` of `llm_factory.py`: a
`for attempt in range(max_retries)` loop sleeping `base_delay * 2 ** attempt`
after each non-final failure, then `raise last_exception`.  Outcome `none`
models the `max_retries = 0` corner where `last_exception` is still `None`
and `raise None` raises a `TypeError` rather than an operation failure. -/
def llmRetryLoop {E A : Type} (op : ℕ → Except E A) (base_delay : ℚ)
    (max_retries : ℕ) : (attempt : ℕ) → (budget : ℕ) →
    Option (Except E A) × ℕ × List ℚ
  | _, 0 => (none, 0, [])
  | attempt, budget + 1 =>
    match op attempt with
    | .ok a => (some (.ok a), 1, [])
    | .error e =>
      if budget = 0 then
        (some (.error e), 1, [])
      else
        let rest := llmRetryLoop op base_delay max_retries (attempt + 1) budget
        (rest.1, rest.2.1 + 1, base_delay * 2 ^ attempt :: rest.2.2)

/-- `llm_factory.retry_with_backoff` (defaults `max_retries = 3`,
`base_delay = 1.0`). -/
def llm_retry_with_backoff {E A : Type} (max_retries : ℕ) (base_delay : ℚ)
    (op : ℕ → Except E A) : Option (Except E A) × ℕ × List ℚ :=
  llmRetryLoop op base_delay max_retries 0 max_retries

/-- State of a `RateLimiter` (token bucket).  `allowance` is fractional;
`last_check` is the event-loop clock value at the previous acquire (or at
construction). -/
structure RateLimiter where
  rate : ℕ
  per : ℚ
  allowance : ℚ
  last_check : ℚ
deriving Repr

/-- `RateLimiter.__init__(rate, per)` at clock value `now`: the bucket starts
full (`allowance = rate`). -/
def RateLimiter.init (rate : ℕ) (per : ℚ) (now : ℚ) : RateLimiter :=
  { rate := rate, per := per, allowance := rate, last_check := now }

/-- `RateLimiter.acquire` at clock value `current`: refill proportionally to
elapsed time, cap at `rate`, deny (`false`) when fewer than 1 token remains,
otherwise consume one token. -/
def RateLimiter.acquire (rl : RateLimiter) (current : ℚ) : RateLimiter × Bool :=
  let time_passed := current - rl.last_check
  let allowance := rl.allowance + time_passed * ((rl.rate : ℚ) / rl.per)
  let allowance := if (rl.rate : ℚ) < allowance then (rl.rate : ℚ) else allowance
  if allowance < 1 then
    ({ rl with allowance := allowance, last_check := current }, false)
  else
    ({ rl with allowance := allowance - 1, last_check := current }, true)

/-- A sequence of acquires at the given clock values; returns each call's
grant/deny answer and the final limiter state. -/
def RateLimiter.acquireSeq (rl : RateLimiter) :
    List ℚ → List Bool × RateLimiter
  | [] => ([], rl)
  | t :: ts =>
    let step := rl.acquire t
    let rest := step.1.acquireSeq ts
    (step.2 :: rest.1, rest.2)

end Resilience

/-! ### thought_stream.py — progress streaming -/

namespace ThoughtStream

/-- `ThoughtType` enum. -/
inductive ThoughtType where
  | understanding | analyzing | classifying | decomposing
  | planning | validating | complete | error
deriving DecidableEq, Repr

/-- The `.value` string of a `ThoughtType`. -/
def ThoughtType.value : ThoughtType → String
  | .understanding => "understanding"
  | .analyzing => "analyzing"
  | .classifying => "classifying"
  | .decomposing => "decomposing"
  | .planning => "planning"
  | .validating => "validating"
  | .complete => "complete"
  | .error => "error"

/-- The `thought_templates` table of `ThoughtStream.__init__`. -/
def thought_templates : ThoughtType → List String
  | .understanding =>
    ["🤔 Reading your request...", "📖 Understanding the requirements...",
     "🎯 Analyzing what you need..."]
  | .analyzing =>
    ["🔍 Analyzing technical requirements...", "🧠 Processing with AI...",
     "📊 Evaluating complexity..."]
  | .classifying =>
    ["🏷️ Classifying intent type...", "📋 Determining project category...",
     "🎨 Identifying domain..."]
  | .decomposing =>
    ["🔨 Breaking down into tasks...", "📝 Creating action items...",
     "🧩 Organizing dependencies..."]
  | .planning =>
    ["📅 Estimating effort...", "👥 Identifying required skills...",
     "⚡ Setting priorities..."]
  | .validating =>
    ["✅ Validating task breakdown...", "🔗 Checking dependencies...",
     "📊 Finalizing analysis..."]
  | .complete =>
    ["🎉 Analysis complete!", "✨ Ready to proceed!", "🚀 All set!"]
  | .error =>
    ["❌ Encountered an issue...", "⚠️ Something went wrong...",
     "🔧 Trying alternative approach..."]

/-- One emitted thought (the dict pushed onto the per-request queue).
`message` is `random.choice` over the type's templates in the source; the
choice is modelled as the first template — no property below depends on which
template is picked.  `timestamp` is `datetime.utcnow().isoformat()`, carried
as the numeric instant. -/
structure Thought where
  timestamp : ℚ
  type : String
  message : String
  detail : Option String
  progress : Option ℚ
  metadata : List (String × JVal)

/-- Per-request queues: `active_streams` maps each open `request_id` to the
contents of its `asyncio.Queue` (`none` entries are the end-of-stream sentinel
pushed by `close_stream`). -/
structure State where
  active_streams : List (String × List (Option Thought))

/-- The stream-less initial state. -/
def State.empty : State := ⟨[]⟩

/-- Whether a stream is open for `request_id` (`request_id in self.active_streams`). -/
def State.hasStream (st : State) (request_id : String) : Bool :=
  (st.active_streams.find? (fun e => e.1 = request_id)).isSome

/-- `ThoughtStream.create_stream`: installs a fresh empty queue for the id. -/
def create_stream (st : State) (request_id : String) : State :=
  ⟨(request_id, []) :: st.active_streams.filter (fun e => ¬ e.1 = request_id)⟩

/-- `ThoughtStream.close_stream`: pushes the `None` sentinel and removes the
queue from `active_streams` (the queue object itself lives on with its
consumer; the state only tracks `active_streams`, so after closing, the id is
gone). -/
def close_stream (st : State) (request_id : String) : State :=
  ⟨st.active_streams.filter (fun e => ¬ e.1 = request_id)⟩

/-- `ThoughtStream.emit_thought`: when no stream is open for the id, log a
warning and return — the state is untouched; otherwise append the thought
dict to that id's queue. -/
def emit_thought (st : State) (request_id : String) (thought_type : ThoughtType)
    (detail : Option String := none) (progress : Option ℚ := none)
    (metadata : Option (List (String × JVal)) := none) (now : ℚ := 0) : State :=
  match st.active_streams.find? (fun e => e.1 = request_id) with
  | none => st
  | some _ =>
    let thought : Thought :=
      { timestamp := now
        type := thought_type.value
        message := (thought_templates thought_type).headD "Processing..."
        detail := detail
        progress := progress
        metadata := metadata.getD [] }
    ⟨st.active_streams.map (fun e =>
      if e.1 = request_id then (e.1, e.2 ++ [some thought]) else e)⟩

/-- The `analysis_steps` dict passed by `RobustIntentAnalyzer.analyze_intent`
to `emit_detailed_analysis` (all six keys are always present at that call
site). -/
structure AnalysisSteps where
  text : String
  domain : String
  intent_type : String
  confidence : ℚ
  task_count : ℕ
  total_hours : ℚ

/-- `ThoughtStream.emit_detailed_analysis`: the six-phase emission flow (the
`'domain' in analysis_steps` style guards are all true for the dict built at
the only call site; the `asyncio.sleep(0.5)` pacing calls have no state
effect). -/
def emit_detailed_analysis (st : State) (request_id : String)
    (steps : AnalysisSteps) (now : ℚ := 0) : State :=
  let st := emit_thought st request_id .understanding
    (some ("Request length: " ++ toString steps.text.length ++ " characters"))
    (some (1/10)) none now
  let st := emit_thought st request_id .analyzing
    (some ("Detected domain: " ++ steps.domain)) (some (3/10)) none now
  let st := emit_thought st request_id .classifying
    (some ("Intent type: " ++ steps.intent_type)) (some (5/10))
    (some [("confidence", .num steps.confidence)]) now
  let st := emit_thought st request_id .decomposing
    (some ("Creating " ++ toString steps.task_count ++ " tasks")) (some (7/10))
    none now
  let st := emit_thought st request_id .planning
    (some ("Estimated effort: " ++ toString steps.total_hours ++ " hours"))
    (some (9/10)) none now
  emit_thought st request_id .complete (some "Analysis complete") (some 1) none now

end ThoughtStream

/-! ### meta_prompt_agent.py — the pieces used by the robust analyzer -/

/-- Whether the first character list is a prefix of the second. -/
def isPrefixChars : List Char → List Char → Bool
  | [], _ => true
  | _ :: _, [] => false
  | c :: cs, d :: ds => c = d && isPrefixChars cs ds

/-- Whether the first character list occurs contiguously in the second. -/
def isInfixChars (needle : List Char) : List Char → Bool
  | [] => isPrefixChars needle []
  | c :: t => isPrefixChars needle (c :: t) || isInfixChars needle t

/-- Python's substring containment `needle in hay` on strings. -/
def substrContains (hay needle : String) : Bool :=
  isInfixChars needle.toList hay.toList

namespace MetaPromptAgent

/-- The `domain_patterns` table of `MetaPromptAgent.__init__` (insertion
order preserved). -/
def domain_patterns : List (String × List String) :=
  [("api_development", ["api", "rest", "graphql", "endpoint", "route", "http",
      "request", "response"]),
   ("data_processing", ["data", "etl", "pipeline", "transform", "aggregate",
      "analytics"]),
   ("ui_development", ["ui", "frontend", "component", "react", "vue", "angular",
      "interface"]),
   ("infrastructure", ["deploy", "kubernetes", "docker", "aws", "azure",
      "terraform", "ci/cd"]),
   ("machine_learning", ["ml", "model", "train", "predict", "neural", "ai",
      "dataset"]),
   ("security", ["security", "auth", "encrypt", "vulnerability", "penetration",
      "ssl"]),
   ("database", ["database", "sql", "query", "schema", "migration", "index",
      "performance"])]

/-- `MetaPromptAgent.analyze_domain`: keyword counting per domain; the best
scoring domain wins, first in insertion order on ties (Python `max` keeps the
first maximum); `"general"` when nothing scores. -/
def analyze_domain (text : String) : String :=
  let text_lower := text.toLower
  let scores := domain_patterns.filterMap (fun p =>
    let score := (p.2.filter (fun keyword => substrContains text_lower keyword)).length
    if 0 < score then some (p.1, score) else none)
  match scores with
  | [] => "general"
  | s :: rest =>
    (rest.foldl (fun best cur => if best.2 < cur.2 then cur else best) s).1

end MetaPromptAgent

/-! ### robust_intent_analyzer.py — the deployed analyzer (`main.py` installs
`RobustIntentAnalyzer` as `app.state.intent_analyzer`) -/

namespace RobustIntentAnalyzer

/-- `RobustIntentAnalyzer._validate_intent_type`: enum-by-value first, then a
keyword-substring mapping table in insertion order, else `unknown`. -/
def validate_intent_type (value : String) : IntentType :=
  match IntentType.ofValue? value.toLower with
  | some t => t
  | none =>
    let lower := value.toLower
    let mappings : List (String × IntentType) :=
      [("feature", .feature_request), ("bug", .bug_fix), ("refactor", .refactoring),
       ("docs", .documentation), ("test", .testing), ("deploy", .deployment),
       ("config", .configuration)]
    match mappings.find? (fun m => substrContains lower m.1) with
    | some m => m.2
    | none => .unknown

/-- `RobustIntentAnalyzer._validate_task_type`. -/
def validate_task_type (value : String) : TaskType :=
  match TaskType.ofValue? value.toLower with
  | some t => t
  | none =>
    let lower := value.toLower
    if substrContains lower "front" then .frontend
    else if substrContains lower "back" then .backend
    else if substrContains lower "data" then .database
    else if substrContains lower "test" then .testing
    else .api

/-- `RobustIntentAnalyzer._validate_priority`. -/
def validate_priority (value : String) : TaskPriority :=
  (TaskPriority.ofValue? value.toLower).getD .medium

/-- `RobustIntentAnalyzer._validate_complexity`. -/
def validate_complexity (value : String) : TaskComplexity :=
  match TaskComplexity.ofValue? value.toLower with
  | some c => c
  | none =>
    let lower := value.toLower
    if substrContains lower "simple" then .simple
    else if substrContains lower "complex" then .complex
    else .moderate

/-- One `task_data` entry of `_parse_json_response`'s task loop.  `fresh i`
models `str(uuid4())` for the `i`-th entry's missing-`id` default.  A `none`
result is the per-task `except` branch: the entry is skipped with a warning.
The pydantic coercions that would accept non-string JSON values where `str`
is expected are modelled as the raising branch (no claim depends on them). -/
def parse_task_data (fresh : ℕ → String) (i : ℕ) (td : JVal) : Option Task :=
  match td with
  | .obj _ => do
    let id ← (td.get "id" (.str (fresh i))).asStr
    let title ← (td.get "title" (.str "Untitled task")).asStr
    let description ← (td.get "description" (.str "")).asStr
    let typeStr ← (td.get "type" (.str "backend")).asStr
    let prioStr ← (td.get "priority" (.str "medium")).asStr
    let cplxStr ← (td.get "complexity" (.str "moderate")).asStr
    let hours ← (td.get "estimated_hours" (.num 8)).toFloat
    let dependencies ← (td.get "dependencies" (.arr [])).asStrList
    let tags ← (td.get "tags" (.arr [])).asStrList
    let acceptance_criteria ← (td.get "acceptance_criteria" (.arr [])).asStrList
    Task.mk?
      { id := id
        title := title
        description := description
        type := validate_task_type typeStr
        priority := validate_priority prioStr
        complexity := validate_complexity cplxStr
        estimated_hours := some hours
        dependencies := dependencies
        tags := tags
        acceptance_criteria := acceptance_criteria }
  | _ => none

/-- `RobustIntentAnalyzer._parse_json_response` applied to the already parsed
JSON document `data` (the `re.search(r'\x7b.*\x7d', ...)` extraction and
`json.loads` happen upstream of this function in the oracle; a response from
which no document parses is the `none` oracle case).  A non-object document,
an empty or entirely unparseable task list, a bad `confidence`/`intent_type`/
`summary`/`metadata` value, or a failed pydantic validation all funnel into
`none` — the source's catch-all `except` returning `None`. -/
def parse_json_response (fresh : ℕ → String) (data : JVal) : Option IntentAnalysisResult :=
  match data with
  | .obj _ =>
    let tasks :=
      match data.get "tasks" (.arr []) with
      | .arr taskDatas => (taskDatas.enum.map (fun p => parse_task_data fresh p.1 p.2)).reduceOption
      | _ => []
    if tasks.isEmpty then none
    else
      match (data.get "intent_type" (.str "unknown")).asStr,
          (data.get "confidence" (.num (1/2))).toFloat,
          (data.get "summary" (.str "Analysis complete")).asStr,
          (data.get "metadata" (.obj [])).asObj with
      | some intentStr, some confidence, some summary, some metadata =>
        IntentAnalysisResult.mk?
          { intent_type := validate_intent_type intentStr
            confidence := confidence
            summary := summary
            tasks := tasks
            metadata := metadata }
      | _, _, _, _ => none
  | _ => none

/-- `RobustIntentAnalyzer._create_default_task` (`str(uuid4())` is the
injected `freshId`; the description is truncated to 200 characters). -/
def create_default_task (freshId : String) (text : String) : Task :=
  { id := freshId
    title := "Implement requested functionality"
    description := text.take 200
    type := .backend
    priority := .medium
    complexity := .moderate
    estimated_hours := some 8
    dependencies := []
    tags := ["general"] }

/-- `RobustIntentAnalyzer._create_minimal_result`. -/
def create_minimal_result (freshId : String) (text : String) : IntentAnalysisResult :=
  { intent_type := .unknown
    confidence := 1/10
    summary := "Unable to fully analyze request"
    tasks := [create_default_task freshId text]
    metadata := [("error", .str "all_strategies_failed")] }

/-- Oracle for the one LLM round trip the analyzer can actually perform per
cache miss (see `analyze_intent` below): `provider_available` is whether
`llm_factory.get_provider()` returns a provider, and `structured_json` is the
JSON document extracted and parsed from `provider.generate`'s response text
(`none` when `generate` raised, no `\x7b.*\x7d` match was found, or
`json.loads` failed). -/
structure Oracle where
  provider_available : Bool
  structured_json : Option JVal

/-- `RobustIntentAnalyzer._llm_with_structured_output` (the only strategy
whose signature accepts the `request_id` argument, so the only one whose body
ever runs): no provider → `None`; otherwise parse the generated response. -/
def llm_with_structured_output (o : Oracle) (fresh : ℕ → String) : Option IntentAnalysisResult :=
  if o.provider_available then
    match o.structured_json with
    | some data => parse_json_response fresh data
    | none => none
  else none

/-- `strategy.__name__.replace('_', ' ').title()` for the five strategies, in
chain order (the leading space comes from the leading underscore). -/
def strategy_titles : List String :=
  [" Llm With Structured Output", " Llm With Guided Generation",
   " Llm With Simple Prompt", " Rule Based With Nlp", " Basic Keyword Analysis"]

/-- `strategy.__name__` for the five strategies, in chain order. -/
def strategy_names : List String :=
  ["_llm_with_structured_output", "_llm_with_guided_generation",
   "_llm_with_simple_prompt", "_rule_based_with_nlp", "_basic_keyword_analysis"]

/-- The `ANALYZING` progress thought emitted at the top of strategy iteration
`i` (`progress = 0.1 + i * 0.15`). -/
def emit_strategy_progress (stream : ThoughtStream.State) (request_id : Option String)
    (i : ℕ) (now : ℚ) : ThoughtStream.State :=
  match request_id with
  | some rid =>
    ThoughtStream.emit_thought stream rid .analyzing
      (some ("Trying strategy: " ++ (strategy_titles.getD i "")))
      (some (1/10 + i * (3/20))) none now
  | none => stream

/-- The `ERROR` thought emitted when strategy iteration `i` raises.  For
iterations 1–4 the raised exception is the `TypeError` from the arity
mismatch described at `analyze_intent`; its `str(e)` rendering is modelled by
a fixed message naming the strategy. -/
def emit_strategy_error (stream : ThoughtStream.State) (request_id : Option String)
    (i : ℕ) (now : ℚ) : ThoughtStream.State :=
  match request_id with
  | some rid =>
    ThoughtStream.emit_thought stream rid .error
      (some ("Strategy failed: " ++ (strategy_names.getD i "")))
      none
      (some [("error", .str ((strategy_names.getD i "") ++
        "() takes 4 positional arguments but 5 were given"))]) now
  | none => stream

/-- Outcome of `RobustIntentAnalyzer.analyze_intent`: the returned result plus
the final cache and thought-stream states, and the number of
`llm_factory.get_provider()` consultations performed (0 on a cache hit, 1 on a
miss — see below). -/
structure AnalyzeOutcome where
  result : IntentAnalysisResult
  cache : IntentCache.State
  stream : ThoughtStream.State
  provider_consultations : ℕ

/-- `RobustIntentAnalyzer.analyze_intent`.

The source tries the five `self.strategies` in order with
`await strategy(text, context, project_info, request_id)`
(robust_intent_analyzer.py line 105) — four positional arguments.  Only
`_llm_with_structured_output` is declared with a matching signature
`(self, text, context, project_info, request_id=None)`; the other four
strategies are declared `(self, text, context, project_info)` (lines 210–215,
277–282, 304–309, 358–363), so calling them with the extra `request_id`
argument raises `TypeError` before their bodies run.  The `except Exception`
at line 126 swallows the `TypeError`, logs, emits an `ERROR` thought and
advances, so iterations 2–5 always take the error branch and the chain
degenerates to: cache → structured-output strategy → minimal fallback.

`fresh` supplies the `str(uuid4())` values (`fresh i` for the `i`-th parsed
task's missing id, and `fresh 0` for the minimal result's default task, the
only uuid drawn on that path). -/
def analyze_intent (o : Oracle) (fresh : ℕ → String) (cache : IntentCache.State)
    (stream : ThoughtStream.State) (text : String) (context : List (String × JVal))
    (request_id : Option String) (now : ℚ) : AnalyzeOutcome :=
  -- initial UNDERSTANDING thought
  let stream := match request_id with
    | some rid =>
      ThoughtStream.emit_thought stream rid .understanding
        (some ("Processing " ++ toString text.length ++ " character request"))
        (some (1/20)) none now
    | none => stream
  -- cache check
  let cacheOut := IntentCache.get cache text context now
  match cacheOut.1 with
  | some cached =>
    let stream := match request_id with
      | some rid =>
        ThoughtStream.emit_thought stream rid .complete
          (some "Found in cache") (some 1) none now
      | none => stream
    { result := cached, cache := cacheOut.2, stream := stream
      provider_consultations := 0 }
  | none =>
    let cache := cacheOut.2
    -- strategy 1: _llm_with_structured_output (consults llm_factory.get_provider once)
    let stream := emit_strategy_progress stream request_id 0 now
    match llm_with_structured_output o fresh with
    | some result =>
      let stream := match request_id with
        | some rid =>
          ThoughtStream.emit_detailed_analysis stream rid
            { text := text
              domain := MetaPromptAgent.analyze_domain text
              intent_type := result.intent_type.value
              confidence := result.confidence
              task_count := result.tasks.length
              total_hours := (result.tasks.map (fun t => t.estimated_hours.getD 0)).sum }
            now
        | none => stream
      { result := result
        cache := IntentCache.set cache text result context now
        stream := stream
        provider_consultations := 1 }
    | none =>
      -- strategies 2–5: arity TypeError, caught and logged each iteration
      let stream := emit_strategy_progress stream request_id 1 now
      let stream := emit_strategy_error stream request_id 1 now
      let stream := emit_strategy_progress stream request_id 2 now
      let stream := emit_strategy_error stream request_id 2 now
      let stream := emit_strategy_progress stream request_id 3 now
      let stream := emit_strategy_error stream request_id 3 now
      let stream := emit_strategy_progress stream request_id 4 now
      let stream := emit_strategy_error stream request_id 4 now
      -- all strategies failed: minimal result, cached as well
      let result := create_minimal_result (fresh 0) text
      { result := result
        cache := IntentCache.set cache text result context now
        stream := stream
        provider_consultations := 1 }

/-- `RobustIntentAnalyzer.validate_tasks` — the implementation actually wired
to the `/api/v1/validate-tasks` endpoint (`main.py` line 393 calls it on
`app.state.intent_analyzer`, a `RobustIntentAnalyzer`): it builds an ad-hoc
object with `is_valid = True` and empty issue/suggestion lists, ignoring the
breakdown entirely. -/
def validate_tasks (_task_breakdown : TaskBreakdown) : ValidationResult :=
  { is_valid := true, issues := [], suggestions := [] }

end RobustIntentAnalyzer

/-! ### intent_analyzer.py — `IntentAnalyzer` (topological pass and validation) -/

namespace IntentAnalyzer

/-- `task_map = \x7btask.id: task for task in tasks\x7d` lookups: on duplicate
ids the later binding wins, as in a Python dict comprehension. -/
def task_map_get (tasks : List Task) (id : String) : Option Task :=
  tasks.reverse.find? (fun t => t.id = id)

/-- `dep_id in task_map` — membership among the task ids. -/
def containsId (tasks : List Task) (id : String) : Bool :=
  tasks.any (fun t => t.id = id)

/-- The ids of a task list, in order. -/
def idsOf (tasks : List Task) : List String := tasks.map (fun t => t.id)

/-- The inner `visit(task_id)` of `IntentAnalyzer._optimize_task_order`: an
accumulator-passing depth-first visit over the dependency graph.  The
accumulator carries the Python closure state `(visited, result)`.  `fuel`
bounds the recursion depth; every recursive call is on an id that is about to
be freshly added to `visited` and lies in `task_map`, so a fuel of
`tasks.length + 1` (used by `optimize_task_order` below) can never be
exhausted before the `task_id in visited` early return fires — the
equivalence is part of the `visit` specification proved later via the
`unvisited`-cardinality bound. -/
def visit (tasks : List Task) : ℕ → String → List String × List Task → List String × List Task
  | 0, _, acc => acc
  | fuel + 1, task_id, acc =>
    if task_id ∈ acc.1 then acc
    else
      let visited := acc.1 ++ [task_id]
      match task_map_get tasks task_id with
      | none => (visited, acc.2)
      | some t =>
        let acc' := t.dependencies.foldl
          (fun a dep_id =>
            if containsId tasks dep_id then visit tasks fuel dep_id a else a)
          (visited, acc.2)
        (acc'.1, acc'.2 ++ [t])

/-- The dependency loop inside `visit`'s found-task branch (a `foldl` over the
task's dependency list, recursing only on ids present in `task_map`), named
separately so the specification lemmas below can speak about it. -/
def visitFold (tasks : List Task) (fuel : ℕ) (ds : List String)
    (acc : List String × List Task) : List String × List Task :=
  ds.foldl
    (fun a dep_id => if containsId tasks dep_id then visit tasks fuel dep_id a else a)
    acc

/-- `IntentAnalyzer._optimize_task_order`: visit every task in input order,
sharing the `(visited, result)` state; `result` is returned.  (The `except`
fallback returning the input untouched is dead: the body is pure and total.) -/
def optimize_task_order (tasks : List Task) : List Task :=
  (tasks.foldl (fun acc t => visit tasks (tasks.length + 1) t.id acc) ([], [])).2

/-- State of the cycle-detection DFS: `(visited, rec_stack)`, both Python sets
(each id occurs at most once; the recursion stack is removed-from on clean
exit and deliberately left dirty on a positive answer, which short-circuits
to the top anyway). -/
abbrev CycleSt := List String × List String

/-- The inner `has_cycle(task_id)` of
`IntentAnalyzer._has_circular_dependencies`: white/grey DFS.  Returns the
answer plus the updated `(visited, rec_stack)`.  `fuel` bounds depth as in
`visit`; each recursive call is on an id freshly added to `visited`
(dependencies may dangle, so ids outside `task_map` also enter `visited`
— the fuel chosen by `has_circular_dependencies` covers them all). -/
def has_cycle (tasks : List Task) : ℕ → String → CycleSt → Bool × CycleSt
  | 0, _, st => (false, st)
  | fuel + 1, task_id, (visited, rec_stack) =>
    let visited := visited ++ [task_id]
    let rec_stack := rec_stack ++ [task_id]
    match task_map_get tasks task_id with
    | none => (false, visited, rec_stack.filter (fun x => ¬ x = task_id))
    | some t =>
      let folded := t.dependencies.foldl
        (fun (a : Bool × CycleSt) dep_id =>
          if a.1 then a
          else if dep_id ∈ a.2.1 then
            (if dep_id ∈ a.2.2 then (true, a.2) else a)
          else has_cycle tasks fuel dep_id a.2)
        (false, visited, rec_stack)
      if folded.1 then folded
      else (false, folded.2.1, folded.2.2.filter (fun x => ¬ x = task_id))

/-- `IntentAnalyzer._has_circular_dependencies`: run `has_cycle` from every
not-yet-visited task id; any positive answer short-circuits to `True`.  The
fuel covers every id that can ever be visited (all task ids plus all
dependency ids). -/
def has_circular_dependencies (tasks : List Task) : Bool :=
  let fuel := tasks.length + (tasks.map (fun t => t.dependencies.length)).sum + 1
  (tasks.foldl
    (fun (acc : Bool × CycleSt) t =>
      if acc.1 then acc
      else if t.id ∈ acc.2.1 then acc
      else has_cycle tasks fuel t.id acc.2)
    (false, [], [])).1

/-- `IntentAnalyzer._has_inconsistent_types`: more than half of the occurring
task types appear on exactly one task. -/
def has_inconsistent_types (tasks : List Task) : Bool :=
  let types := (tasks.map (fun t => t.type)).dedup
  let counts := types.map (fun ty => (tasks.filter (fun t => t.type = ty)).length)
  let single_task_types := (counts.filter (fun c => c = 1)).length
  ((types.length : ℚ) * (1/2)) < (single_task_types : ℚ)

/-- `IntentAnalyzer.validate_tasks`: pure reads of the breakdown, issues for
cycles and dangling dependencies, suggestions for outsized estimates, missing
acceptance criteria and scattered types.  (Estimate rendering uses the
numeric `toString`; Python's `str(float)` differs only in formatting.) -/
def validate_tasks (tb : TaskBreakdown) : ValidationResult :=
  let result : ValidationResult := { is_valid := true }
  let result :=
    if has_circular_dependencies tb.tasks then
      result.add_issue "Circular dependencies detected in task breakdown"
    else result
  let result := tb.tasks.foldl (fun r task =>
    task.dependencies.foldl (fun r dep_id =>
      if containsId tb.tasks dep_id then r
      else r.add_issue ("Task " ++ task.id ++ " depends on non-existent task " ++ dep_id)) r)
    result
  let result := tb.tasks.foldl (fun r task =>
    match task.estimated_hours with
    | some h =>
      if 40 < h then
        r.add_suggestion ("Task '" ++ task.title ++ "' has high estimate (" ++
          toString h ++ "h). Consider breaking it down further.")
      else r
    | none => r) result
  let result := tb.tasks.foldl (fun r task =>
    if task.acceptance_criteria.isEmpty then
      r.add_suggestion ("Task '" ++ task.title ++ "' lacks acceptance criteria")
    else r) result
  if has_inconsistent_types tb.tasks then
    result.add_suggestion "Consider grouping related tasks by type for better organization"
  else result

/-- Oracle for one `IntentAnalyzer.analyze_intent` run — the outcome of each
of its four LLM round trips after their own local error handling:
`classify` is `_classify_intent`'s pair (that method catches its own
exceptions and falls back to `(unknown, 0.0)`); `extracted_info` is
`_extract_information`'s dict (falls back to `\x7b\x7d`); `generated_tasks`
is `_generate_tasks`' parsed task list, `none` when that method raised (its
exceptions propagate); `summary` is `_generate_summary`'s text (falls back to
a fixed message). -/
structure Oracle where
  classify : IntentType × ℚ
  extracted_info : List (String × JVal)
  generated_tasks : Option (List Task)
  summary : String

/-- `IntentAnalyzer.analyze_intent`: classify → extract → generate tasks →
`_optimize_task_order` → summary → result.  `none` models the re-raise of a
strategy exception (`_generate_tasks` failure, or the pydantic confidence
validator rejecting the classified confidence). -/
def analyze_intent (o : Oracle) (text : String) (now : ℚ) :
    Option IntentAnalysisResult :=
  match o.generated_tasks with
  | none => none
  | some tasks =>
    let optimized := optimize_task_order tasks
    IntentAnalysisResult.mk?
      { intent_type := o.classify.1
        confidence := o.classify.2
        summary := o.summary
        tasks := optimized
        metadata := [("original_text", .str text),
                     ("extracted_info", .obj o.extracted_info),
                     ("processing_timestamp", .num now)] }

/-- Dependency-respecting order: every dependency of a task that names an id
present in the same breakdown occurs at an earlier position. -/
def DepsRespected (res : List Task) : Prop :=
  ∀ i : Fin res.length, ∀ d ∈ (res.get i).dependencies,
    d ∈ idsOf res → ∃ j : Fin res.length, j.1 < i.1 ∧ (res.get j).id = d

instance (res : List Task) : Decidable (DepsRespected res) := by
  unfold DepsRespected; infer_instance

/-- Acyclicity of a breakdown's dependency graph, witnessed by a rank
function under which every in-breakdown dependency has strictly smaller rank
than its dependent — the standard characterization of "contains no dependency
cycle". -/
def AcyclicRank (tasks : List Task) (rank : String → ℕ) : Prop :=
  ∀ t ∈ tasks, ∀ d ∈ t.dependencies, containsId tasks d = true → rank d < rank t.id

instance (tasks : List Task) (rank : String → ℕ) : Decidable (AcyclicRank tasks rank) := by
  unfold AcyclicRank; infer_instance

/-- Number of task ids not yet visited — the termination/adequacy measure of
the depth-first `visit`. -/
def unvisited (tasks : List Task) (V : List String) : ℕ :=
  ((idsOf tasks).toFinset \ V.toFinset).card

/-- Prefix-closed ordering invariant of the visit output: whenever the list
splits as `A ++ t :: B`, every in-breakdown dependency of `t` already occurs
among the ids of `A`. -/
def OrderedAcc (tasks res : List Task) : Prop :=
  ∀ A t B, res = A ++ t :: B → ∀ d ∈ t.dependencies,
    containsId tasks d = true → d ∈ idsOf A

/-- Invariant bundle for the `visit` specification proofs, relating the ghost
recursion stack `S` to the state `(V, R)` of the depth-first visit: the stack
is visited, the emitted ids are exactly the visited ids off the stack, emitted
ids are distinct, and every emitted task is the `task_map` binding of its id. -/
def VisitInv (tasks : List Task) (S V : List String) (R : List Task) : Prop :=
  (∀ s ∈ S, s ∈ V) ∧
  (∀ x, x ∈ idsOf R ↔ (x ∈ V ∧ x ∉ S)) ∧
  (idsOf R).Nodup ∧
  (∀ t ∈ R, task_map_get tasks t.id = some t)

end IntentAnalyzer

namespace Resilience

/-- A run of calls that all fail at the given instants. -/
def failTimes (ts : List ℚ) : List (ℚ × Bool) := ts.map (fun t => (t, false))

/-- Reachability invariant of the circuit breaker: away from `closed`, the
failure count has reached the threshold and a failure time is recorded. -/
def CBInv (cb : CircuitBreaker) : Prop :=
  cb.state ≠ .closed →
    cb.failure_threshold ≤ cb.failure_count ∧ cb.last_failure_time.isSome

/-- Number of granted acquisitions in an answer list. -/
def countTrue (bs : List Bool) : ℕ := (bs.filter (fun b => b)).length

end Resilience

/-! ## Theorems

Helper lemmas first, then one theorem per claim (with witnesses and
counterexamples where required). -/

namespace Resilience

/-- Unfolding of one `acquire` step in terms of the refilled-and-capped
allowance. -/
theorem acquire_eq (rl : RateLimiter) (t : ℚ) :
    rl.acquire t =
      (let a' := rl.allowance + (t - rl.last_check) * ((rl.rate : ℚ) / rl.per)
       let acap := if (rl.rate : ℚ) < a' then (rl.rate : ℚ) else a'
       if acap < 1 then ({ rl with allowance := acap, last_check := t }, false)
       else ({ rl with allowance := acap - 1, last_check := t }, true)) := rfl

theorem countTrue_cons_false (l : List Bool) : countTrue (false :: l) = countTrue l := by
  simp [countTrue]

theorem countTrue_cons_true (l : List Bool) : countTrue (true :: l) = countTrue l + 1 := by
  simp [countTrue, List.filter_cons]

theorem countTrue_eq_length (l : List Bool) (h : ∀ b ∈ l, b = true) :
    countTrue l = l.length := by
  induction l with
  | nil => rfl
  | cons b l ih =>
    have hb := h b (List.mem_cons_self _ _)
    subst hb
    rw [countTrue_cons_true, ih (fun x hx => h x (List.mem_cons_of_mem _ hx))]
    simp

theorem acquireSeq_length : ∀ (ts : List ℚ) (rl : RateLimiter),
    (rl.acquireSeq ts).1.length = ts.length := by
  intro ts
  induction ts with
  | nil => intro rl; rfl
  | cons t ts ih =>
    intro rl
    show ((rl.acquire t).2 :: ((rl.acquire t).1.acquireSeq ts).1).length = ts.length + 1
    rw [List.length_cons, ih]

/-- At most `allowance + elapsed·rate/per` of any burst's acquisitions are
granted: a granted call consumes a full token and refills only add
proportionally to elapsed time (capping only lowers the bucket). -/
theorem successes_le (T : ℚ) : ∀ (ts : List ℚ) (rl : RateLimiter),
    0 ≤ rl.allowance → 0 ≤ (rl.rate : ℚ) / rl.per →
    rl.last_check ≤ T → (∀ t ∈ ts, t ≤ T) →
    List.Chain (· ≤ ·) rl.last_check ts →
    (countTrue (rl.acquireSeq ts).1 : ℚ) ≤
      rl.allowance + (T - rl.last_check) * ((rl.rate : ℚ) / rl.per) := by
  intro ts
  induction ts with
  | nil =>
    intro rl ha hq hlc _ _
    have : countTrue (rl.acquireSeq []).1 = 0 := rfl
    rw [this]
    push_cast
    nlinarith
  | cons t ts ih =>
    intro rl ha hq hlc hT hchain
    rw [List.chain_cons] at hchain
    obtain ⟨hlt, hchain⟩ := hchain
    have hTt : t ≤ T := hT t (List.mem_cons_self _ _)
    have hT' : ∀ u ∈ ts, u ≤ T := fun u hu => hT u (List.mem_cons_of_mem _ hu)
    have hrefill : 0 ≤ (t - rl.last_check) * ((rl.rate : ℚ) / rl.per) :=
      mul_nonneg (by linarith) hq
    have hring : rl.allowance + (t - rl.last_check) * ((rl.rate : ℚ) / rl.per) +
        (T - t) * ((rl.rate : ℚ) / rl.per) =
        rl.allowance + (T - rl.last_check) * ((rl.rate : ℚ) / rl.per) := by ring
    rw [show rl.acquireSeq (t :: ts) =
      (let step := rl.acquire t
       let rest := step.1.acquireSeq ts
       (step.2 :: rest.1, rest.2)) from rfl]
    rw [acquire_eq]
    dsimp only
    set a' := rl.allowance + (t - rl.last_check) * ((rl.rate : ℚ) / rl.per) with ha'def
    set acap := if (rl.rate : ℚ) < a' then (rl.rate : ℚ) else a' with hacapdef
    clear_value acap
    clear_value a'
    have hcaple : acap ≤ a' := by
      rw [hacapdef]; split <;> linarith
    have hcap0 : 0 ≤ acap := by
      rw [hacapdef]; split
      · positivity
      · linarith
    by_cases hc : acap < 1
    · rw [if_pos hc]
      dsimp only
      rw [countTrue_cons_false]
      have := ih { rl with allowance := acap, last_check := t }
        (by simpa using hcap0) (by simpa using hq) (by simpa using hTt)
        hT' (by simpa using hchain)
      simp only at this
      linarith
    · rw [if_neg hc]
      dsimp only
      rw [countTrue_cons_true]
      push_neg at hc
      have := ih { rl with allowance := acap - 1, last_check := t }
        (by simp only; linarith) (by simpa using hq) (by simpa using hTt)
        hT' (by simpa using hchain)
      simp only at this
      push_cast
      linarith

/-- While at least `n` tokens remain (and `n` does not exceed the cap), the
next `n` acquisitions are all granted. -/
theorem first_calls_granted : ∀ (ts : List ℚ) (rl : RateLimiter),
    0 ≤ (rl.rate : ℚ) / rl.per →
    List.Chain (· ≤ ·) rl.last_check ts →
    (ts.length : ℚ) ≤ rl.allowance → (ts.length : ℚ) ≤ (rl.rate : ℚ) →
    ∀ b ∈ (rl.acquireSeq ts).1, b = true := by
  intro ts
  induction ts with
  | nil =>
    intro rl _ _ _ _ b hb
    exact absurd hb (by simp [RateLimiter.acquireSeq])
  | cons t ts ih =>
    intro rl hq hchain hlen hrate
    rw [List.chain_cons] at hchain
    obtain ⟨hlt, hchain⟩ := hchain
    have hlen' : ((ts.length : ℚ)) + 1 ≤ rl.allowance := by
      simp only [List.length_cons] at hlen; push_cast at hlen; linarith
    have hrate' : ((ts.length : ℚ)) + 1 ≤ (rl.rate : ℚ) := by
      simp only [List.length_cons] at hrate; push_cast at hrate; linarith
    have hts0 : (0 : ℚ) ≤ ts.length := by positivity
    intro b hb
    rw [show rl.acquireSeq (t :: ts) =
      (let step := rl.acquire t
       let rest := step.1.acquireSeq ts
       (step.2 :: rest.1, rest.2)) from rfl] at hb
    rw [acquire_eq] at hb
    dsimp only at hb
    set a' := rl.allowance + (t - rl.last_check) * ((rl.rate : ℚ) / rl.per) with ha'def
    set acap := if (rl.rate : ℚ) < a' then (rl.rate : ℚ) else a' with hacapdef
    clear_value acap
    clear_value a'
    have ha'ge : rl.allowance ≤ a' := by
      have : 0 ≤ (t - rl.last_check) * ((rl.rate : ℚ) / rl.per) :=
        mul_nonneg (by linarith) hq
      rw [ ha'def]; linarith
    have hcapge : ((ts.length : ℚ)) + 1 ≤ acap := by
      rw [hacapdef]; split
      · exact hrate'
      · linarith
    rw [if_neg (by linarith)] at hb
    dsimp only at hb
    rcases List.mem_cons.1 hb with hb | hb
    · exact hb
    · exact ih { rl with allowance := acap - 1, last_check := t }
        (by simpa using hq) (by simpa using hchain)
        (by simp only; linarith) (by simp only; linarith) b hb

end Resilience

/-- C7 (amended): each `acquire` refills the bucket proportionally to elapsed
time capped at capacity `rate`, denies when fewer than 1 token remains, and
otherwise consumes exactly one token (first conjunct); and any sequence of
`rate + 1` acquisitions whose calls all fall within `W` seconds of the first,
where `W·rate < per` (so that less than one full token is refilled over the
burst), contains at least one denial (second conjunct).  The claim's original
"within one `per`-second window" bound is refuted by `C7_counterexample`. -/
theorem C7_token_bucket :
    (∀ (rl : Resilience.RateLimiter) (current : ℚ),
       rl.acquire current =
         (let a' := rl.allowance + (current - rl.last_check) * ((rl.rate : ℚ) / rl.per)
          let acap := if (rl.rate : ℚ) < a' then (rl.rate : ℚ) else a'
          if acap < 1 then ({ rl with allowance := acap, last_check := current }, false)
          else ({ rl with allowance := acap - 1, last_check := current }, true))) ∧
    (∀ (rate : ℕ) (per t0 t1 W : ℚ) (rest : List ℚ),
       1 ≤ rate → 0 < per → 0 ≤ W → W * rate < per →
       List.Chain (· ≤ ·) t0 (t1 :: rest) →
       (∀ t ∈ rest, t ≤ t1 + W) →
       rest.length = rate →
       false ∈ ((Resilience.RateLimiter.init rate per t0).acquireSeq (t1 :: rest)).1) := by
  constructor
  · exact Resilience.acquire_eq
  · intro rate per t0 t1 W rest h1 hper hW0 hW hchain hrest hlen
    rw [List.chain_cons] at hchain
    obtain ⟨h01, hchain⟩ := hchain
    have hq0 : 0 ≤ (rate : ℚ) / per := div_nonneg (by positivity) hper.le
    have h1r : (1 : ℚ) ≤ (rate : ℚ) := by exact_mod_cast h1
    -- the first call is granted from a full (re-capped) bucket
    have hstep : (Resilience.RateLimiter.init rate per t0).acquire t1 =
        ({ rate := rate, per := per, allowance := (rate : ℚ) - 1, last_check := t1 },
         true) := by
      rw [Resilience.acquire_eq]
      dsimp only [Resilience.RateLimiter.init]
      have hrefill : 0 ≤ (t1 - t0) * ((rate : ℚ) / per) :=
        mul_nonneg (by linarith) hq0
      have hacap : (if (rate : ℚ) < (rate : ℚ) + (t1 - t0) * ((rate : ℚ) / per)
          then (rate : ℚ) else (rate : ℚ) + (t1 - t0) * ((rate : ℚ) / per)) = (rate : ℚ) := by
        split
        · rfl
        · rename_i hn
          push_neg at hn
          linarith
      rw [hacap, if_neg (by linarith)]
    rw [show (Resilience.RateLimiter.init rate per t0).acquireSeq (t1 :: rest) =
      (let step := (Resilience.RateLimiter.init rate per t0).acquire t1
       let rest' := step.1.acquireSeq rest
       (step.2 :: rest'.1, rest'.2)) from rfl]
    rw [hstep]
    dsimp only
    by_contra hno
    have hall : ∀ b ∈ (({ rate := rate, per := per, allowance := (rate : ℚ) - 1, last_check := t1 } : Resilience.RateLimiter).acquireSeq rest).1, b = true := by
      intro b hb
      cases b
      · exact absurd (List.mem_cons_of_mem _ hb) hno
      · rfl
    have hcount := Resilience.countTrue_eq_length _ hall
    have hbound := Resilience.successes_le (t1 + W) rest
      { rate := rate, per := per, allowance := (rate : ℚ) - 1, last_check := t1 }
      (by simp only; linarith) (by simpa using hq0) (by simp only; linarith)
      (by simpa using hrest) (by simpa using hchain)
    rw [hcount, Resilience.acquireSeq_length, hlen] at hbound
    have hWq : W * ((rate : ℚ) / per) < 1 := by
      rw [show W * ((rate : ℚ) / per) = (W * rate) / per by ring]
      exact (div_lt_one hper).2 hW
    have : ((rate : ℚ)) ≤ (rate : ℚ) - 1 + (t1 + W - t1) * ((rate : ℚ) / per) := hbound
    have hfin : (t1 + W - t1) * ((rate : ℚ) / per) = W * ((rate : ℚ) / per) := by ring
    rw [hfin] at this
    linarith

/-- C7 counterexample to the claim as stated: with `rate = 2`, `per = 1`, the
three (= `rate + 1`) acquisitions at instants `0, 2/5, 4/5` — all inside one
`per`-second window — are all granted: the bucket refills continuously
(`4/5 · rate / per` tokens over the burst), so no denial occurs. -/
theorem C7_counterexample :
    ((Resilience.RateLimiter.init 2 1 0).acquireSeq [0, 2/5, 4/5]).1 =
      [true, true, true] ∧
    (4/5 : ℚ) - 0 < 1 ∧ (0 : ℚ) ≤ 0 ∧ (0 : ℚ) ≤ 2/5 ∧ (2/5 : ℚ) ≤ 4/5 := by
  refine ⟨?_, by norm_num, by norm_num, by norm_num, by norm_num⟩
  norm_num [Resilience.RateLimiter.acquireSeq, Resilience.acquire_eq,
    Resilience.RateLimiter.init]

/-- C7 witness for the amended theorem: with `rate = 2`, `per = 1`, three
acquisitions at instants `0, 1/10, 1/5` (window `1/5`, and `1/5 · 2 < 1`)
contain a denial. -/
theorem C7_token_bucket_witness :
    (1 ≤ 2 ∧ (0 : ℚ) < 1 ∧ (0 : ℚ) ≤ 1/5 ∧ (1/5 : ℚ) * 2 < 1 ∧
      List.Chain (· ≤ ·) (0 : ℚ) [0, 1/10, 1/5] ∧
      (∀ t ∈ [(1/10 : ℚ), 1/5], t ≤ 0 + 1/5) ∧
      [(1/10 : ℚ), 1/5].length = 2) ∧
    false ∈ ((Resilience.RateLimiter.init 2 1 0).acquireSeq [0, 1/10, 1/5]).1 := by
  refine ⟨⟨by norm_num, by norm_num, by norm_num, by norm_num,
    by norm_num [List.chain_cons], by norm_num [List.forall_mem_cons], by norm_num⟩, ?_⟩
  exact C7_token_bucket.2 2 1 0 0 (1/5) [1/10, 1/5] (by norm_num) (by norm_num)
    (by norm_num) (by norm_num) (by norm_num [List.chain_cons])
    (by norm_num [List.forall_mem_cons]) (by norm_num)

/-- C10: a freshly constructed `RateLimiter(rate, per)` starts with a full
bucket, so under a monotone clock its first `rate` acquisitions are all
granted, however the elapsed times are spread; a denial can only occur from
the `(rate+1)`-th call onward. -/
theorem C10_fresh_bucket_grants (rate : ℕ) (per t0 : ℚ) (ts : List ℚ)
    (hper : 0 < per) (hchain : List.Chain (· ≤ ·) t0 ts) (hlen : ts.length ≤ rate) :
    ∀ b ∈ ((Resilience.RateLimiter.init rate per t0).acquireSeq ts).1, b = true := by
  apply Resilience.first_calls_granted
  · exact div_nonneg (by positivity) hper.le
  · simpa [Resilience.RateLimiter.init] using hchain
  · simp only [Resilience.RateLimiter.init]
    exact_mod_cast hlen
  · exact_mod_cast hlen

/-- C10 witness: a fresh `RateLimiter(2, 1)` grants its first two
acquisitions even when they are 100 seconds apart. -/
theorem C10_fresh_bucket_grants_witness :
    ((0 : ℚ) < 1 ∧ List.Chain (· ≤ ·) (0 : ℚ) [0, 100] ∧ [(0 : ℚ), 100].length ≤ 2) ∧
    ∀ b ∈ ((Resilience.RateLimiter.init 2 1 0).acquireSeq [0, 100]).1, b = true :=
  ⟨⟨by norm_num, by norm_num [List.chain_cons], by norm_num⟩,
   C10_fresh_bucket_grants 2 1 0 [0, 100] (by norm_num)
     (by norm_num [List.chain_cons]) (by norm_num)⟩

namespace Resilience

theorem call_closed_failure (cb : CircuitBreaker) (now : ℚ) (h : cb.state = .closed) :
    cb.call now false = (cb.on_failure now, .failed) := by
  simp [CircuitBreaker.call, h]

theorem call_open_fresh (cb : CircuitBreaker) (now : ℚ) (b : Bool)
    (hst : cb.state = .opened) (hr : cb.should_attempt_reset now = false) :
    cb.call now b = (cb, .rejected) := by
  simp [CircuitBreaker.call, hst, hr]

theorem call_open_trial_success (cb : CircuitBreaker) (now : ℚ)
    (hst : cb.state = .opened) (hr : cb.should_attempt_reset now = true) :
    cb.call now true = ({ cb with failure_count := 0, state := .closed }, .succeeded) := by
  simp [CircuitBreaker.call, hst, hr, CircuitBreaker.on_success]

theorem call_open_trial_failure (cb : CircuitBreaker) (now : ℚ)
    (hst : cb.state = .opened) (hr : cb.should_attempt_reset now = true) :
    cb.call now false =
      ({ cb with
          failure_count := cb.failure_count + 1
          last_failure_time := some now
          state := (if cb.failure_threshold ≤ cb.failure_count + 1 then .opened
            else .halfOpen) }, .failed) := by
  simp [CircuitBreaker.call, hst, hr, CircuitBreaker.on_failure]

theorem consecutive_failures : ∀ (ts : List ℚ) (cb : CircuitBreaker),
    cb.state = .closed → cb.failure_count + ts.length = cb.failure_threshold →
    1 ≤ ts.length →
    ((cb.run (failTimes ts)).1.state = .opened ∧
     (cb.run (failTimes ts)).1.failure_count = cb.failure_threshold) := by
  intro ts
  induction ts with
  | nil => intro cb _ _ h; exact absurd h (by simp)
  | cons t ts ih =>
    intro cb hstate hcount _
    rw [show failTimes (t :: ts) = (t, false) :: failTimes ts from rfl]
    rw [show cb.run ((t, false) :: failTimes ts) =
      (let step := cb.call t false
       let tail := step.1.run (failTimes ts)
       (tail.1, step.2 :: tail.2)) from rfl]
    rw [call_closed_failure cb t hstate]
    dsimp only
    simp only [List.length_cons] at hcount
    cases ts with
    | nil =>
      simp only [List.length_nil] at hcount
      have hthr : cb.failure_threshold ≤ cb.failure_count + 1 := by omega
      show ((cb.on_failure t).state = .opened ∧
        (cb.on_failure t).failure_count = cb.failure_threshold)
      unfold CircuitBreaker.on_failure
      refine ⟨by simp [hthr], by simp only; omega⟩
    | cons t' ts' =>
      have hlt : ¬ cb.failure_threshold ≤ cb.failure_count + 1 := by
        simp only [List.length_cons] at hcount
        omega
      have hof : (cb.on_failure t).state = .closed ∧
          (cb.on_failure t).failure_count = cb.failure_count + 1 ∧
          (cb.on_failure t).failure_threshold = cb.failure_threshold := by
        unfold CircuitBreaker.on_failure
        refine ⟨by simp [hlt, hstate], by simp, by simp⟩
      have := ih (cb.on_failure t) hof.1
        (by rw [hof.2.1, hof.2.2]; simp only [List.length_cons] at hcount ⊢; omega)
        (by simp)
      rw [hof.2.2] at this
      exact this

theorem cbinv_preserved (cb : CircuitBreaker) (now : ℚ) (b : Bool)
    (hinv : CBInv cb) : CBInv (cb.call now b).1 := by
  by_cases hst : cb.state = .opened
  · by_cases hr : cb.should_attempt_reset now = true
    · cases b with
      | true =>
        rw [call_open_trial_success cb now hst hr]
        intro h
        exact absurd rfl h
      | false =>
        rw [call_open_trial_failure cb now hst hr]
        have h1 := hinv (by rw [hst]; intro hc; cases hc)
        intro _
        exact ⟨by simp only; omega, by simp⟩
    · rw [call_open_fresh cb now b hst (by simpa using hr)]
      exact hinv
  · have hcall : cb.call now b =
        (if b then (cb.on_success, .succeeded) else (cb.on_failure now, .failed)) := by
      simp [CircuitBreaker.call, hst]
    rw [hcall]
    cases b with
    | true =>
      simp only [if_true, reduceIte]
      intro h
      exact absurd rfl h
    | false =>
      simp only [Bool.false_eq_true, if_false, reduceIte]
      intro h
      unfold CircuitBreaker.on_failure at h ⊢
      simp only at h ⊢
      by_cases hthr : cb.failure_threshold ≤ cb.failure_count + 1
      · exact ⟨by omega, by simp⟩
      · rw [if_neg hthr] at h
        have := hinv h
        exact ⟨by omega, by simp⟩

end Resilience


/-- C6: the circuit breaker follows closed → open → half-open → closed.
Conjuncts: (1) from a fresh breaker, `failure_threshold` consecutive wrapped
failures leave the breaker open (failure count at the threshold); (2) while
open, and within `recovery_timeout` of the recorded failure, every call is
rejected without invoking the wrapped operation and without touching the
breaker state; (3) once strictly more than `recovery_timeout` has elapsed the
next call is let through as a half-open trial — success closes the circuit
and resets the failure count, failure re-opens it (the count being at the
threshold on every reachable open state) and restamps the failure time,
resetting the recovery timer; (4) the reachability invariant `CBInv` — away
from `closed`, the failure count has reached the threshold and a failure time
is recorded — holds initially and is preserved by every call. -/
theorem C6_circuit_breaker :
    (∀ (thr : ℕ) (rto : ℚ) (ts : List ℚ), 1 ≤ ts.length → ts.length = thr →
       ((Resilience.CircuitBreaker.init thr rto).run (Resilience.failTimes ts)).1.state =
         .opened) ∧
    (∀ (cb : Resilience.CircuitBreaker) (now : ℚ) (b : Bool), cb.state = .opened →
       (∀ t, cb.last_failure_time = some t → now - t ≤ cb.recovery_timeout) →
       cb.call now b = (cb, .rejected)) ∧
    (∀ (cb : Resilience.CircuitBreaker) (now t : ℚ), cb.state = .opened →
       cb.last_failure_time = some t → cb.recovery_timeout < now - t →
       (cb.call now true = ({ cb with failure_count := 0, state := .closed },
          .succeeded)) ∧
       ((cb.call now false).2 = .failed ∧
        (cb.call now false).1.last_failure_time = some now ∧
        (cb.failure_threshold ≤ cb.failure_count →
          (cb.call now false).1.state = .opened))) ∧
    (∀ (cb : Resilience.CircuitBreaker) (now : ℚ) (b : Bool),
       Resilience.CBInv cb → Resilience.CBInv (cb.call now b).1) ∧
    (∀ (thr : ℕ) (rto : ℚ), Resilience.CBInv (Resilience.CircuitBreaker.init thr rto)) := by
  refine ⟨?_, ?_, ?_, Resilience.cbinv_preserved, ?_⟩
  · intro thr rto ts h1 hlen
    exact (Resilience.consecutive_failures ts (Resilience.CircuitBreaker.init thr rto)
      rfl (by simp [Resilience.CircuitBreaker.init, hlen]) h1).1
  · intro cb now b hst hto
    have hreset : cb.should_attempt_reset now = false := by
      unfold Resilience.CircuitBreaker.should_attempt_reset
      cases hl : cb.last_failure_time with
      | none => rfl
      | some t =>
        simp only [decide_eq_false_iff_not, not_lt]
        exact hto t hl
    exact Resilience.call_open_fresh cb now b hst hreset
  · intro cb now t hst hl hto
    have hreset : cb.should_attempt_reset now = true := by
      unfold Resilience.CircuitBreaker.should_attempt_reset
      rw [hl]
      simp only [decide_eq_true_eq]
      exact hto
    refine ⟨Resilience.call_open_trial_success cb now hst hreset, ?_⟩
    rw [Resilience.call_open_trial_failure cb now hst hreset]
    refine ⟨rfl, rfl, ?_⟩
    intro hthr
    simp only
    rw [if_pos (by omega)]
  · intro thr rto
    intro h
    exact absurd rfl h

/-- C6 witness: threshold 2, timeout 30 — two failures open a fresh breaker;
the open breaker rejects at 10 s (9 s after the last failure); at 100 s the
trial call is let through, closing on success and re-opening on failure. -/
theorem C6_circuit_breaker_witness :
    (1 ≤ [(0 : ℚ), 1].length ∧ [(0 : ℚ), 1].length = 2 ∧
     ((Resilience.CircuitBreaker.init 2 30).run (Resilience.failTimes [0, 1])).1.state =
       .opened) ∧
    (({ failure_threshold := 2, recovery_timeout := 30, failure_count := 2, last_failure_time := some 1, state := .opened } : Resilience.CircuitBreaker).call 10 true =
      ({ failure_threshold := 2, recovery_timeout := 30, failure_count := 2, last_failure_time := some 1, state := .opened }, .rejected)) ∧
    ((({ failure_threshold := 2, recovery_timeout := 30, failure_count := 2, last_failure_time := some 1, state := .opened } : Resilience.CircuitBreaker).call 100 true).1.state = .closed) ∧
    ((({ failure_threshold := 2, recovery_timeout := 30, failure_count := 2, last_failure_time := some 1, state := .opened } : Resilience.CircuitBreaker).call 100 false).1.state = .opened) := by
  refine ⟨⟨by norm_num, by norm_num, C6_circuit_breaker.1 2 30 [0, 1] (by norm_num)
    (by norm_num)⟩, ?_, ?_, ?_⟩
  · exact C6_circuit_breaker.2.1 _ 10 true rfl
      (by intro t ht; cases ht; norm_num)
  · rw [(C6_circuit_breaker.2.2.1 _ 100 1 rfl rfl (by norm_num)).1]
  · exact (C6_circuit_breaker.2.2.1 _ 100 1 rfl rfl (by norm_num)).2.2.2 (le_refl 2)

namespace Resilience

theorem retryLoop_fail_exp {E : Type} (err : ℕ → E) :
    ∀ (r a : ℕ) (d : ℚ), 1 ≤ r →
    retryLoop (fun k => (Except.error (err k) : Except E Unit)) true r a d =
      (some (.error (err (a + (r - 1)))), r,
       (List.range (r - 1)).map (fun k => d * 2 ^ k)) := by
  intro r
  induction r with
  | zero => intro a d h; exact absurd h (by omega)
  | succ m ih =>
    intro a d _
    cases m with
    | zero => simp [retryLoop]
    | succ m' =>
      rw [show retryLoop (fun k => (Except.error (err k) : Except E Unit)) true
          (m' + 1 + 1) a d =
        (let rest := retryLoop (fun k => (Except.error (err k) : Except E Unit)) true
          (m' + 1) (a + 1) (d * 2)
         (rest.1, rest.2.1 + 1, d :: rest.2.2)) from by
          simp [retryLoop]]
      rw [ih (a + 1) (d * 2) (by omega)]
      dsimp only
      refine congrArg₂ Prod.mk (by rw [show a + 1 + (m' + 1 - 1) = a + (m' + 1 + 1 - 1) by omega]) ?_
      refine congrArg₂ Prod.mk (by omega) ?_
      rw [show m' + 1 + 1 - 1 = m' + 1 by omega, show m' + 1 - 1 = m' by omega]
      rw [List.range_succ_eq_map, List.map_cons, List.map_map]
      refine congrArg₂ List.cons (by norm_num) ?_
      apply List.map_congr_left
      intro k _
      simp only [Function.comp_apply]
      rw [pow_succ]
      ring

theorem retryLoop_fail_const {E : Type} (err : ℕ → E) :
    ∀ (r a : ℕ) (d : ℚ), 1 ≤ r →
    retryLoop (fun k => (Except.error (err k) : Except E Unit)) false r a d =
      (some (.error (err (a + (r - 1)))), r, List.replicate (r - 1) d) := by
  intro r
  induction r with
  | zero => intro a d h; exact absurd h (by omega)
  | succ m ih =>
    intro a d _
    cases m with
    | zero => simp [retryLoop]
    | succ m' =>
      rw [show retryLoop (fun k => (Except.error (err k) : Except E Unit)) false
          (m' + 1 + 1) a d =
        (let rest := retryLoop (fun k => (Except.error (err k) : Except E Unit)) false
          (m' + 1) (a + 1) d
         (rest.1, rest.2.1 + 1, d :: rest.2.2)) from by
          simp [retryLoop]]
      rw [ih (a + 1) d (by omega)]
      dsimp only
      refine congrArg₂ Prod.mk (by rw [show a + 1 + (m' + 1 - 1) = a + (m' + 1 + 1 - 1) by omega]) ?_
      refine congrArg₂ Prod.mk (by omega) ?_
      rw [show m' + 1 + 1 - 1 = m' + 1 by omega, show m' + 1 - 1 = m' by omega]
      rfl

theorem llmRetryLoop_fail {E : Type} (err : ℕ → E) (d : ℚ) (mr : ℕ) :
    ∀ (b a : ℕ), 1 ≤ b →
    llmRetryLoop (fun k => (Except.error (err k) : Except E Unit)) d mr a b =
      (some (.error (err (a + (b - 1)))), b,
       (List.range (b - 1)).map (fun k => d * 2 ^ (a + k))) := by
  intro b
  induction b with
  | zero => intro a h; exact absurd h (by omega)
  | succ m ih =>
    intro a _
    cases m with
    | zero => simp [llmRetryLoop]
    | succ m' =>
      rw [show llmRetryLoop (fun k => (Except.error (err k) : Except E Unit)) d mr a
          (m' + 1 + 1) =
        (let rest := llmRetryLoop (fun k => (Except.error (err k) : Except E Unit)) d mr
          (a + 1) (m' + 1)
         (rest.1, rest.2.1 + 1, d * 2 ^ a :: rest.2.2)) from by
          simp [llmRetryLoop]]
      rw [ih (a + 1) (by omega)]
      dsimp only
      refine congrArg₂ Prod.mk (by rw [show a + 1 + (m' + 1 - 1) = a + (m' + 1 + 1 - 1) by omega]) ?_
      refine congrArg₂ Prod.mk (by omega) ?_
      rw [show m' + 1 + 1 - 1 = m' + 1 by omega, show m' + 1 - 1 = m' by omega]
      rw [List.range_succ_eq_map, List.map_cons, List.map_map]
      refine congrArg₂ List.cons (by norm_num) ?_
      apply List.map_congr_left
      intro k _
      simp only [Function.comp_apply]
      rw [show a + (k + 1) = a + 1 + k by omega]

end Resilience

/-- C8 (amended): for an operation failing on every attempt,
`retry_with_backoff(retries = N, backoff_in_seconds = base)` invokes the
operation exactly `N` times in total — the initial attempt counts against the
budget, i.e. the initial attempt plus `N - 1` retries, not plus `N` — waits
`base·2^attempt` before the `(attempt+1)`-th retry (`base` constant when
`exponential = False`), and re-raises the operation's last failure after the
`N`-th failed attempt; with `N = 0` the wrapper invokes nothing and returns
`None` without raising.  `llm_factory.py`'s `retry_with_backoff(max_retries,
base_delay)` behaves identically.  The claim's `N + 1` total invocations are
refuted by `C8_counterexample`. -/
theorem C8_retry_total_attempts :
    (∀ {E : Type} (err : ℕ → E) (retries : ℕ) (base : ℚ), 1 ≤ retries →
      (Resilience.retry_with_backoff retries base true
          (fun k => (Except.error (err k) : Except E Unit)) =
        (some (.error (err (retries - 1))), retries,
         (List.range (retries - 1)).map (fun k => base * 2 ^ k))) ∧
      (Resilience.retry_with_backoff retries base false
          (fun k => (Except.error (err k) : Except E Unit)) =
        (some (.error (err (retries - 1))), retries,
         List.replicate (retries - 1) base)) ∧
      (Resilience.llm_retry_with_backoff retries base
          (fun k => (Except.error (err k) : Except E Unit)) =
        (some (.error (err (retries - 1))), retries,
         (List.range (retries - 1)).map (fun k => base * 2 ^ k)))) ∧
    (∀ {E A : Type} (base : ℚ) (exponential : Bool) (op : ℕ → Except E A),
      Resilience.retry_with_backoff 0 base exponential op = (none, 0, [])) := by
  constructor
  · intro E err retries base h1
    refine ⟨?_, ?_, ?_⟩
    · unfold Resilience.retry_with_backoff
      rw [Resilience.retryLoop_fail_exp err retries 0 base h1]
      simp
    · unfold Resilience.retry_with_backoff
      rw [Resilience.retryLoop_fail_const err retries 0 base h1]
      simp
    · unfold Resilience.llm_retry_with_backoff
      rw [Resilience.llmRetryLoop_fail err base retries retries 0 h1]
      simp
  · intro E A base exponential op
    rfl

/-- C8 counterexample to the claim as stated: with `retries = 1` an
always-failing operation is invoked exactly once — there is no retry at all —
whereas "the initial time plus up to N retry times" promises 2 invocations
for an operation that fails every attempt. -/
theorem C8_counterexample :
    (Resilience.retry_with_backoff 1 1 true
        (fun k => (Except.error k : Except ℕ Unit))).2.1 = 1 ∧
    (1 : ℕ) ≠ 1 + 1 :=
  ⟨rfl, by omega⟩

/-- C8 witness: three total attempts with exponential delays `[1, 2]`, the
last error (attempt index 2) re-raised. -/
theorem C8_retry_total_attempts_witness :
    1 ≤ 3 ∧
    Resilience.retry_with_backoff 3 1 true
        (fun k => (Except.error k : Except ℕ Unit)) =
      (some (.error 2), 3, [1, 2]) := by
  refine ⟨by norm_num, ?_⟩
  rw [(C8_retry_total_attempts.1 (fun k => k) 3 1 (by norm_num)).1]
  norm_num [List.range_succ]

namespace ThoughtStream

theorem emit_thought_no_stream (st : State) (rid : String) (ty : ThoughtType)
    (detail : Option String) (progress : Option ℚ)
    (metadata : Option (List (String × JVal))) (now : ℚ)
    (h : st.hasStream rid = false) :
    emit_thought st rid ty detail progress metadata now = st := by
  unfold State.hasStream at h
  unfold emit_thought
  cases hf : st.active_streams.find? (fun e => e.1 = rid) with
  | none => rfl
  | some e => rw [hf] at h; simp at h

end ThoughtStream

/-- C9: progress emission never fails or alters the outcome of an analysis.
Conjuncts: (1) `emit_thought` for a request id with no open stream returns
normally (it is a total function) leaving every stream's state untouched;
(2) the result of `analyze_intent` is the same value whatever the thought
stream state and whatever request id (or none) is supplied — emission feeds
the stream only, never the returned analysis. -/
theorem C9_emit_is_frame :
    (∀ (st : ThoughtStream.State) (rid : String) (ty : ThoughtStream.ThoughtType)
       (detail : Option String) (progress : Option ℚ)
       (metadata : Option (List (String × JVal))) (now : ℚ),
       st.hasStream rid = false →
       ThoughtStream.emit_thought st rid ty detail progress metadata now = st) ∧
    (∀ (o : RobustIntentAnalyzer.Oracle) (fresh : ℕ → String)
       (cache : IntentCache.State) (s₁ s₂ : ThoughtStream.State)
       (text : String) (ctx : List (String × JVal))
       (rid₁ rid₂ : Option String) (now : ℚ),
       (RobustIntentAnalyzer.analyze_intent o fresh cache s₁ text ctx rid₁ now).result =
         (RobustIntentAnalyzer.analyze_intent o fresh cache s₂ text ctx rid₂ now).result ∧
       (RobustIntentAnalyzer.analyze_intent o fresh cache s₁ text ctx rid₁ now).cache =
         (RobustIntentAnalyzer.analyze_intent o fresh cache s₂ text ctx rid₂ now).cache ∧
       (RobustIntentAnalyzer.analyze_intent o fresh cache s₁ text ctx rid₁ now).provider_consultations =
         (RobustIntentAnalyzer.analyze_intent o fresh cache s₂ text ctx rid₂ now).provider_consultations) := by
  constructor
  · exact ThoughtStream.emit_thought_no_stream
  · intro o fresh cache s₁ s₂ text ctx rid₁ rid₂ now
    unfold RobustIntentAnalyzer.analyze_intent
    cases hget : (IntentCache.get cache text ctx now).1 with
    | some cached => simp [hget]
    | none =>
      cases hstrat : RobustIntentAnalyzer.llm_with_structured_output o fresh with
      | some r => simp [hget, hstrat]
      | none => simp [hget, hstrat]

/-- C9 witness: emitting into the stream-less state is the identity. -/
theorem C9_emit_is_frame_witness :
    ThoughtStream.State.empty.hasStream "req-1" = false ∧
    ThoughtStream.emit_thought ThoughtStream.State.empty "req-1" .analyzing
      (some "detail") (some (1/2)) none 0 = ThoughtStream.State.empty :=
  ⟨rfl, C9_emit_is_frame.1 ThoughtStream.State.empty "req-1" .analyzing
    (some "detail") (some (1/2)) none 0 rfl⟩

/-- C2: when every strategy fails — with the deployed chain this means the
structured-output strategy produced nothing (no provider, generation raised,
or the response carried no parsable JSON), since strategies 2–5 always raise
the arity `TypeError` — `analyze_intent` returns (and caches) the synthesized
minimal result: intent `unknown`, confidence `0.1`, exactly one generic
default task.  The embedding is a total function: no exception escapes for
any oracle, cache, stream, or input. -/
theorem C2_minimal_fallback :
    ∀ (o : RobustIntentAnalyzer.Oracle) (fresh : ℕ → String)
      (cache : IntentCache.State) (stream : ThoughtStream.State)
      (text : String) (ctx : List (String × JVal)) (rid : Option String) (now : ℚ),
      RobustIntentAnalyzer.llm_with_structured_output o fresh = none →
      (IntentCache.get cache text ctx now).1 = none →
      (RobustIntentAnalyzer.analyze_intent o fresh cache stream text ctx rid now).result =
        RobustIntentAnalyzer.create_minimal_result (fresh 0) text ∧
      (RobustIntentAnalyzer.analyze_intent o fresh cache stream text ctx rid now).result.intent_type =
        .unknown ∧
      (RobustIntentAnalyzer.analyze_intent o fresh cache stream text ctx rid now).result.confidence =
        1/10 ∧
      (RobustIntentAnalyzer.analyze_intent o fresh cache stream text ctx rid now).result.tasks.length =
        1 ∧
      (RobustIntentAnalyzer.analyze_intent o fresh cache stream text ctx rid now).cache =
        IntentCache.set (IntentCache.get cache text ctx now).2 text
          (RobustIntentAnalyzer.create_minimal_result (fresh 0) text) ctx now := by
  intro o fresh cache stream text ctx rid now hstrat hget
  unfold RobustIntentAnalyzer.analyze_intent
  simp [hget, hstrat, RobustIntentAnalyzer.create_minimal_result]

/-- C2 witness: with no provider and a fresh cache, the minimal result is
returned for a concrete request. -/
theorem C2_minimal_fallback_witness :
    RobustIntentAnalyzer.llm_with_structured_output ⟨false, none⟩ (fun _ => "uuid-0") = none ∧
    (IntentCache.get IntentCache.init "fix the crash" [] 0).1 = none ∧
    (RobustIntentAnalyzer.analyze_intent ⟨false, none⟩ (fun _ => "uuid-0")
      IntentCache.init ThoughtStream.State.empty "fix the crash" [] none 0).result =
      RobustIntentAnalyzer.create_minimal_result "uuid-0" "fix the crash" :=
  ⟨rfl, rfl,
   (C2_minimal_fallback ⟨false, none⟩ (fun _ => "uuid-0") IntentCache.init
     ThoughtStream.State.empty "fix the crash" [] none 0 rfl rfl).1⟩

namespace IntentCache

theorem set_ttl (c : State) (text : String) (r : IntentAnalysisResult)
    (ctx : List (String × JVal)) (now : ℚ) : (set c text r ctx now).ttl = c.ttl := rfl

theorem get_ttl (c : State) (text : String) (ctx : List (String × JVal)) (now : ℚ) :
    ((get c text ctx now).2).ttl = c.ttl := by
  unfold get
  dsimp only
  split
  · split <;> rfl
  · rfl

theorem get_set_fresh (c : State) (text : String) (ctx : List (String × JVal))
    (r : IntentAnalysisResult) (now now' : ℚ) (h : now' - now < c.ttl) :
    get (set c text r ctx now) text ctx now' = (some r, set c text r ctx now) := by
  unfold get set
  simp only
  rw [List.find?_cons_of_pos _ (by simp)]
  simp only
  rw [if_pos (by simpa using h)]

end IntentCache

theorem jdumpFields_eq_map (l : List (String × JVal)) :
    jdumpFields l = l.map (fun kv => (kv.1, jdump kv.2)) := by
  induction l with
  | nil => rfl
  | cons kv fs ih => simp only [jdumpFields, ih, List.map_cons]

theorem jdumpFields_map_fst (l : List (String × JVal)) :
    (jdumpFields l).map Prod.fst = l.map Prod.fst := by
  rw [jdumpFields_eq_map, List.map_map]
  rfl

theorem sorted_nodupkeys_eq : ∀ {l₁ l₂ : List (String × String)},
    l₁.Perm l₂ → l₁.Sorted keyLe → l₂.Sorted keyLe →
    (l₁.map Prod.fst).Nodup → l₁ = l₂ := by
  intro l₁
  induction l₁ with
  | nil =>
    intro l₂ hp _ _ _
    exact (hp.symm.eq_nil).symm
  | cons a t₁ ih =>
    intro l₂ hp hs₁ hs₂ hn
    cases l₂ with
    | nil => exact absurd hp.eq_nil (by simp)
    | cons b t₂ =>
      have hab : a = b := by
        rcases List.mem_cons.1 (hp.mem_iff.1 (List.mem_cons_self a t₁)) with h1 | h1
        · exact h1
        rcases List.mem_cons.1 (hp.symm.mem_iff.1 (List.mem_cons_self b t₂)) with h2 | h2
        · exact h2.symm
        exfalso
        have hba : b.1 ≤ a.1 := List.rel_of_sorted_cons hs₂ a h1
        have hab' : a.1 ≤ b.1 := List.rel_of_sorted_cons hs₁ b h2
        have hkey : a.1 = b.1 := le_antisymm hab' hba
        have hmem : a.1 ∈ t₁.map Prod.fst := List.mem_map.2 ⟨b, h2, hkey.symm⟩
        rw [List.map_cons, List.nodup_cons] at hn
        exact hn.1 hmem
      subst hab
      have := ih hp.cons_inv hs₁.of_cons hs₂.of_cons
        (by rw [List.map_cons, List.nodup_cons] at hn; exact hn.2)
      rw [this]

theorem generate_key_perm (text : String) {ctx₁ ctx₂ : List (String × JVal)}
    (hp : ctx₁.Perm ctx₂) (hn : (ctx₁.map Prod.fst).Nodup) :
    IntentCache.generate_key text ctx₁ = IntentCache.generate_key text ctx₂ := by
  unfold IntentCache.generate_key
  suffices h : List.insertionSort keyLe (jdumpFields ctx₁) =
      List.insertionSort keyLe (jdumpFields ctx₂) by
    simp [jdump, h]
  have hfperm : (jdumpFields ctx₁).Perm (jdumpFields ctx₂) := by
    rw [jdumpFields_eq_map, jdumpFields_eq_map]
    exact hp.map _
  have hperm : (List.insertionSort keyLe (jdumpFields ctx₁)).Perm
      (List.insertionSort keyLe (jdumpFields ctx₂)) :=
    ((List.perm_insertionSort keyLe (jdumpFields ctx₁)).trans hfperm).trans
      (List.perm_insertionSort keyLe (jdumpFields ctx₂)).symm
  refine sorted_nodupkeys_eq hperm (List.sorted_insertionSort keyLe _)
    (List.sorted_insertionSort keyLe _) ?_
  have hmfperm : ((List.insertionSort keyLe (jdumpFields ctx₁)).map Prod.fst).Perm
      (ctx₁.map Prod.fst) := by
    rw [show (ctx₁.map Prod.fst) = (jdumpFields ctx₁).map Prod.fst from
      (jdumpFields_map_fst ctx₁).symm]
    exact (List.perm_insertionSort keyLe (jdumpFields ctx₁)).map _
  exact hmfperm.nodup_iff.2 hn

namespace RobustIntentAnalyzer

theorem analyze_hit {o : Oracle} {fresh : ℕ → String} {cache : IntentCache.State}
    {stream : ThoughtStream.State} {text : String} {ctx : List (String × JVal)}
    {rid : Option String} {now : ℚ} {r : IntentAnalysisResult}
    (hget : (IntentCache.get cache text ctx now).1 = some r) :
    (analyze_intent o fresh cache stream text ctx rid now).result = r ∧
    (analyze_intent o fresh cache stream text ctx rid now).provider_consultations = 0 := by
  unfold analyze_intent
  simp [hget]

theorem analyze_miss_cache {o : Oracle} {fresh : ℕ → String} {cache : IntentCache.State}
    {stream : ThoughtStream.State} {text : String} {ctx : List (String × JVal)}
    {rid : Option String} {now : ℚ}
    (hget : (IntentCache.get cache text ctx now).1 = none) :
    (analyze_intent o fresh cache stream text ctx rid now).cache =
      IntentCache.set (IntentCache.get cache text ctx now).2 text
        (analyze_intent o fresh cache stream text ctx rid now).result ctx now := by
  unfold analyze_intent
  cases hstrat : llm_with_structured_output o fresh with
  | some r => simp [hget, hstrat]
  | none => simp [hget, hstrat]

end RobustIntentAnalyzer

/-- C5: cache idempotence.  Conjuncts: (1) `set` followed by `get` for the
same `(text, context)` within the TTL returns exactly the stored result and
leaves the cache untouched; (2) the cache key is independent of the context
dictionary's key order (`json.dumps(..., sort_keys=True)`): permuting the
(unique-keyed) context entries yields the identical key; (3) a second
`analyze_intent` with the identical `(text, context)` within the TTL of a
first (cache-missing) call returns a result value-equal to the first call's
result and performs zero provider consultations. -/
theorem C5_cache_idempotence :
    (∀ (c : IntentCache.State) (text : String) (ctx : List (String × JVal))
       (r : IntentAnalysisResult) (now now' : ℚ), now' - now < c.ttl →
       (IntentCache.get (IntentCache.set c text r ctx now) text ctx now').1 = some r) ∧
    (∀ (text : String) (ctx₁ ctx₂ : List (String × JVal)), ctx₁.Perm ctx₂ →
       (ctx₁.map Prod.fst).Nodup →
       IntentCache.generate_key text ctx₁ = IntentCache.generate_key text ctx₂) ∧
    (∀ (o₁ o₂ : RobustIntentAnalyzer.Oracle) (f₁ f₂ : ℕ → String)
       (cache : IntentCache.State) (s₁ s₂ : ThoughtStream.State)
       (text : String) (ctx : List (String × JVal)) (rid₁ rid₂ : Option String)
       (now now' : ℚ),
       (IntentCache.get cache text ctx now).1 = none →
       now' - now < cache.ttl →
       (RobustIntentAnalyzer.analyze_intent o₂ f₂
          (RobustIntentAnalyzer.analyze_intent o₁ f₁ cache s₁ text ctx rid₁ now).cache
          s₂ text ctx rid₂ now').result =
         (RobustIntentAnalyzer.analyze_intent o₁ f₁ cache s₁ text ctx rid₁ now).result ∧
       (RobustIntentAnalyzer.analyze_intent o₂ f₂
          (RobustIntentAnalyzer.analyze_intent o₁ f₁ cache s₁ text ctx rid₁ now).cache
          s₂ text ctx rid₂ now').provider_consultations = 0) := by
  refine ⟨?_, ?_, ?_⟩
  · intro c text ctx r now now' h
    rw [IntentCache.get_set_fresh c text ctx r now now' h]
  · intro text ctx₁ ctx₂ hp hn
    exact generate_key_perm text hp hn
  · intro o₁ o₂ f₁ f₂ cache s₁ s₂ text ctx rid₁ rid₂ now now' hget httl
    have hcache := @RobustIntentAnalyzer.analyze_miss_cache o₁ f₁ cache s₁ text
      ctx rid₁ now hget
    have httl' : now' - now < ((IntentCache.get cache text ctx now).2).ttl := by
      rw [IntentCache.get_ttl]
      exact httl
    have hhit : (IntentCache.get
        (RobustIntentAnalyzer.analyze_intent o₁ f₁ cache s₁ text ctx rid₁ now).cache
        text ctx now').1 =
        some (RobustIntentAnalyzer.analyze_intent o₁ f₁ cache s₁ text ctx rid₁ now).result := by
      rw [hcache, IntentCache.get_set_fresh _ text ctx _ now now' httl']

    exact RobustIntentAnalyzer.analyze_hit hhit

/-- C5 witness: storing and re-reading a concrete result 50 s later (TTL 24 h)
returns it; two permuted two-key contexts generate the same key; a second
concrete `analyze_intent` call within the TTL returns the first call's result
with zero provider consultations. -/
theorem C5_cache_idempotence_witness :
    ((50 : ℚ) - 0 < (IntentCache.init).ttl ∧
     (IntentCache.get (IntentCache.set IntentCache.init "t"
        (RobustIntentAnalyzer.create_minimal_result "u" "t") [] 0) "t" [] 50).1 =
       some (RobustIntentAnalyzer.create_minimal_result "u" "t")) ∧
    (([( "b", JVal.str "1"), ("a", JVal.str "2")] :
        List (String × JVal)).Perm [("a", JVal.str "2"), ("b", JVal.str "1")] ∧
     IntentCache.generate_key "t" [("b", JVal.str "1"), ("a", JVal.str "2")] =
       IntentCache.generate_key "t" [("a", JVal.str "2"), ("b", JVal.str "1")]) ∧
    ((IntentCache.get IntentCache.init "t" [] 0).1 = none ∧
     (RobustIntentAnalyzer.analyze_intent ⟨false, none⟩ (fun _ => "u2")
        (RobustIntentAnalyzer.analyze_intent ⟨false, none⟩ (fun _ => "u")
          IntentCache.init ThoughtStream.State.empty "t" [] none 0).cache
        ThoughtStream.State.empty "t" [] none 50).result =
       (RobustIntentAnalyzer.analyze_intent ⟨false, none⟩ (fun _ => "u")
          IntentCache.init ThoughtStream.State.empty "t" [] none 0).result) := by
  refine ⟨⟨by norm_num [IntentCache.init], ?_⟩, ⟨?_, ?_⟩, ⟨rfl, ?_⟩⟩
  · exact C5_cache_idempotence.1 IntentCache.init "t" []
      (RobustIntentAnalyzer.create_minimal_result "u" "t") 0 50
      (by norm_num [IntentCache.init])
  · exact List.Perm.swap _ _ _
  · exact C5_cache_idempotence.2.1 "t" _ _ (List.Perm.swap _ _ _) (by decide)
  · exact (C5_cache_idempotence.2.2 ⟨false, none⟩ ⟨false, none⟩ (fun _ => "u")
      (fun _ => "u2") IntentCache.init ThoughtStream.State.empty
      ThoughtStream.State.empty "t" [] none none 0 50 rfl
      (by norm_num [IntentCache.init])).1

/-- C3 (code bug): for the two-task cycle `A ↔ B`,
`IntentAnalyzer.validate_tasks` — the implementation matching the spec and
the repository's own tests — returns `is_valid = False` with the issue string
naming the circular dependency (first two conjuncts; the embedding is a pure
function of the breakdown, so validation cannot mutate its input).  But
`RobustIntentAnalyzer.validate_tasks`, the implementation `main.py` actually
wires to the `/api/v1/validate-tasks` endpoint, is a stub that reports the
same cyclic breakdown as valid with no issues (last conjunct) — the deployed
code contradicts the claim. -/
theorem C3_validate_tasks_cycle :
    (IntentAnalyzer.validate_tasks
      { tasks := [⟨"A", "Task A", "", .backend, .medium, .moderate, some 8, ["B"], [], ["done"]⟩,
                  ⟨"B", "Task B", "", .backend, .medium, .moderate, some 8, ["A"], [], ["done"]⟩] }).is_valid
      = false ∧
    "Circular dependencies detected in task breakdown" ∈
      (IntentAnalyzer.validate_tasks
        { tasks := [⟨"A", "Task A", "", .backend, .medium, .moderate, some 8, ["B"], [], ["done"]⟩,
                    ⟨"B", "Task B", "", .backend, .medium, .moderate, some 8, ["A"], [], ["done"]⟩] }).issues ∧
    RobustIntentAnalyzer.validate_tasks
      { tasks := [⟨"A", "Task A", "", .backend, .medium, .moderate, some 8, ["B"], [], ["done"]⟩,
                  ⟨"B", "Task B", "", .backend, .medium, .moderate, some 8, ["A"], [], ["done"]⟩] } =
      { is_valid := true, issues := [], suggestions := [] } := by
  have hcyc : IntentAnalyzer.has_circular_dependencies
      [⟨"A", "Task A", "", .backend, .medium, .moderate, some 8, ["B"], [], ["done"]⟩,
       ⟨"B", "Task B", "", .backend, .medium, .moderate, some 8, ["A"], [], ["done"]⟩] = true := by
    decide
  have hit : IntentAnalyzer.has_inconsistent_types
      [⟨"A", "Task A", "", .backend, .medium, .moderate, some 8, ["B"], [], ["done"]⟩,
       ⟨"B", "Task B", "", .backend, .medium, .moderate, some 8, ["A"], [], ["done"]⟩] = false := by
    norm_num [IntentAnalyzer.has_inconsistent_types, List.dedup]
  refine ⟨?_, ?_, rfl⟩ <;>
  norm_num [IntentAnalyzer.validate_tasks, hcyc, hit, IntentAnalyzer.containsId,
    ValidationResult.add_issue, ValidationResult.add_suggestion]

theorem mk?_confidence {x r : IntentAnalysisResult}
    (h : x.mk? = some r) : r = x ∧ 0 ≤ x.confidence ∧ x.confidence ≤ 1 := by
  unfold IntentAnalysisResult.mk? at h
  split at h
  · rename_i hc
    cases h
    exact ⟨rfl, hc.1, hc.2⟩
  · cases h

namespace RobustIntentAnalyzer

theorem parse_json_response_wellformed {fresh : ℕ → String} {data : JVal}
    {r : IntentAnalysisResult} (h : parse_json_response fresh data = some r) :
    (0 ≤ r.confidence ∧ r.confidence ≤ 1) ∧ r.tasks ≠ [] := by
  unfold parse_json_response at h
  cases data with
  | obj fields =>
    replace h : (if (match (JVal.obj fields).get "tasks" (JVal.arr []) with
        | JVal.arr taskDatas =>
          (taskDatas.enum.map (fun (p : ℕ × JVal) => parse_task_data fresh p.1 p.2)).reduceOption
        | _ => ([] : List Task)).isEmpty = true then none
      else
        match ((JVal.obj fields).get "intent_type" (JVal.str "unknown")).asStr,
            ((JVal.obj fields).get "confidence" (JVal.num (1/2))).toFloat,
            ((JVal.obj fields).get "summary" (JVal.str "Analysis complete")).asStr,
            ((JVal.obj fields).get "metadata" (JVal.obj [])).asObj with
        | some intentStr, some confidence, some summary, some metadata =>
          IntentAnalysisResult.mk?
            { intent_type := validate_intent_type intentStr
              confidence := confidence
              summary := summary
              tasks := (match (JVal.obj fields).get "tasks" (JVal.arr []) with
                | JVal.arr taskDatas =>
                  (taskDatas.enum.map
                    (fun (p : ℕ × JVal) => parse_task_data fresh p.1 p.2)).reduceOption
                | _ => ([] : List Task))
              metadata := metadata }
        | _, _, _, _ => none) = some r := h
    generalize htasks : (match (JVal.obj fields).get "tasks" (JVal.arr []) with
      | JVal.arr taskDatas =>
        (taskDatas.enum.map (fun (p : ℕ × JVal) => parse_task_data fresh p.1 p.2)).reduceOption
      | _ => ([] : List Task)) = ts at h
    by_cases hemp : ts.isEmpty = true
    · rw [if_pos hemp] at h
      cases h
    · rw [if_neg hemp] at h
      split at h
      · obtain ⟨hr, hc1, hc2⟩ := mk?_confidence h
        subst hr
        refine ⟨⟨hc1, hc2⟩, ?_⟩
        show ¬ ts = []
        intro hnil
        rw [hnil] at hemp
        simp at hemp
      · cases h
  | null => cases h
  | jbool b => cases h
  | num q => cases h
  | str s => cases h
  | arr xs => cases h

theorem structured_some {o : Oracle} {fresh : ℕ → String} {r : IntentAnalysisResult}
    (h : llm_with_structured_output o fresh = some r) :
    ∃ d, o.structured_json = some d ∧ parse_json_response fresh d = some r := by
  unfold llm_with_structured_output at h
  cases hp : o.provider_available with
  | false => rw [hp] at h; simp at h
  | true =>
    rw [hp] at h
    simp only [if_true, reduceIte] at h
    cases hj : o.structured_json with
    | none => rw [hj] at h; exact Option.noConfusion h
    | some d => simp only [hj] at h; exact ⟨d, rfl, h⟩

end RobustIntentAnalyzer

/-- C1 (amended): on a cache miss, every result returned by
`RobustIntentAnalyzer.analyze_intent` has confidence within `[0, 1]` (the
pydantic validator guards every construction path) and a non-empty task list;
whenever the structured-output strategy produced nothing — the only strategy
whose body can run, see `analyze_intent` — the returned (minimal) breakdown
additionally has pairwise-distinct task ids.  Distinctness does not extend to
results of the structured-output path itself: `_parse_json_response` keeps
the ids carried by the model's JSON without deduplication
(`C1_counterexample`). -/
theorem C1_result_wellformed :
    ∀ (o : RobustIntentAnalyzer.Oracle) (fresh : ℕ → String)
      (cache : IntentCache.State) (stream : ThoughtStream.State)
      (text : String) (ctx : List (String × JVal)) (rid : Option String) (now : ℚ),
      (IntentCache.get cache text ctx now).1 = none →
      (0 ≤ (RobustIntentAnalyzer.analyze_intent o fresh cache stream text ctx rid now).result.confidence ∧
       (RobustIntentAnalyzer.analyze_intent o fresh cache stream text ctx rid now).result.confidence ≤ 1) ∧
      (RobustIntentAnalyzer.analyze_intent o fresh cache stream text ctx rid now).result.tasks ≠ [] ∧
      (RobustIntentAnalyzer.llm_with_structured_output o fresh = none →
        (IntentAnalyzer.idsOf
          (RobustIntentAnalyzer.analyze_intent o fresh cache stream text ctx rid now).result.tasks).Nodup) := by
  intro o fresh cache stream text ctx rid now hget
  cases hstrat : RobustIntentAnalyzer.llm_with_structured_output o fresh with
  | some r =>
    have hres : (RobustIntentAnalyzer.analyze_intent o fresh cache stream text ctx rid now).result = r := by
      unfold RobustIntentAnalyzer.analyze_intent
      simp [hget, hstrat]
    obtain ⟨d, _, hparse⟩ := RobustIntentAnalyzer.structured_some hstrat
    have hw := RobustIntentAnalyzer.parse_json_response_wellformed hparse
    rw [hres]
    exact ⟨hw.1, hw.2, fun hc => Option.noConfusion hc⟩
  | none =>
    have hres : (RobustIntentAnalyzer.analyze_intent o fresh cache stream text ctx rid now).result =
        RobustIntentAnalyzer.create_minimal_result (fresh 0) text := by
      unfold RobustIntentAnalyzer.analyze_intent
      simp [hget, hstrat]
    rw [hres]
    refine ⟨⟨by norm_num [RobustIntentAnalyzer.create_minimal_result],
      by norm_num [RobustIntentAnalyzer.create_minimal_result]⟩, ?_, ?_⟩
    · simp [RobustIntentAnalyzer.create_minimal_result]
    · intro _
      simp [RobustIntentAnalyzer.create_minimal_result,
        RobustIntentAnalyzer.create_default_task, IntentAnalyzer.idsOf]

/-- C1 witness: a no-provider run on a fresh cache returns a result with
confidence in range, one task, and distinct ids. -/
theorem C1_result_wellformed_witness :
    (IntentCache.get IntentCache.init "add an api endpoint" [] 0).1 = none ∧
    (0 ≤ (RobustIntentAnalyzer.analyze_intent ⟨false, none⟩ (fun _ => "u")
        IntentCache.init ThoughtStream.State.empty "add an api endpoint" [] none 0).result.confidence ∧
     (RobustIntentAnalyzer.analyze_intent ⟨false, none⟩ (fun _ => "u")
        IntentCache.init ThoughtStream.State.empty "add an api endpoint" [] none 0).result.confidence ≤ 1) ∧
    (RobustIntentAnalyzer.analyze_intent ⟨false, none⟩ (fun _ => "u")
        IntentCache.init ThoughtStream.State.empty "add an api endpoint" [] none 0).result.tasks ≠ [] :=
  ⟨rfl,
   (C1_result_wellformed ⟨false, none⟩ (fun _ => "u") IntentCache.init
     ThoughtStream.State.empty "add an api endpoint" [] none 0 rfl).1,
   (C1_result_wellformed ⟨false, none⟩ (fun _ => "u") IntentCache.init
     ThoughtStream.State.empty "add an api endpoint" [] none 0 rfl).2.1⟩

/-- C1 counterexample to the claim as stated: for the valid non-empty input
`"fix the login crash"`, when the model's JSON response carries two tasks
both named `task_1`, `analyze_intent` returns a breakdown whose task ids are
not pairwise distinct — `_parse_json_response` never deduplicates ids. -/
theorem C1_counterexample :
    ("fix the login crash" ≠ "") ∧
    IntentAnalyzer.idsOf
      (RobustIntentAnalyzer.analyze_intent
        ⟨true, some (.obj [("tasks", .arr [.obj [("id", .str "task_1")],
            .obj [("id", .str "task_1")]]), ("confidence", .num 1)])⟩
        (fun i => "uuid-" ++ toString i) IntentCache.init ThoughtStream.State.empty
        "fix the login crash" [] none 0).result.tasks = ["task_1", "task_1"] ∧
    ¬ (IntentAnalyzer.idsOf
      (RobustIntentAnalyzer.analyze_intent
        ⟨true, some (.obj [("tasks", .arr [.obj [("id", .str "task_1")],
            .obj [("id", .str "task_1")]]), ("confidence", .num 1)])⟩
        (fun i => "uuid-" ++ toString i) IntentCache.init ThoughtStream.State.empty
        "fix the login crash" [] none 0).result.tasks).Nodup := by
  refine ⟨by decide, by decide, by decide⟩

/-! ### C4 — correctness of the depth-first topological pass -/

namespace IntentAnalyzer

theorem mem_idsOf {tasks : List Task} {x : String} :
    x ∈ idsOf tasks ↔ ∃ t ∈ tasks, t.id = x := by
  simp [idsOf]

theorem containsId_iff {tasks : List Task} {x : String} :
    containsId tasks x = true ↔ x ∈ idsOf tasks := by
  simp [containsId, idsOf, List.any_eq_true]

theorem idsOf_append (l₁ l₂ : List Task) :
    idsOf (l₁ ++ l₂) = idsOf l₁ ++ idsOf l₂ := List.map_append _ _ _

theorem task_map_get_mem {tasks : List Task} {x : String} {t : Task}
    (h : task_map_get tasks x = some t) : t ∈ tasks ∧ t.id = x := by
  unfold task_map_get at h
  have h1 := List.mem_of_find?_eq_some h
  have h2 := List.find?_some h
  rw [List.mem_reverse] at h1
  exact ⟨h1, of_decide_eq_true h2⟩

theorem task_map_get_isSome {tasks : List Task} {x : String}
    (h : x ∈ idsOf tasks) : ∃ t, task_map_get tasks x = some t := by
  rcases mem_idsOf.1 h with ⟨u, hu, hux⟩
  cases hf : task_map_get tasks x with
  | some t => exact ⟨t, rfl⟩
  | none =>
    exfalso
    unfold task_map_get at hf
    rw [List.find?_eq_none] at hf
    exact hf u (List.mem_reverse.2 hu) (by simp [hux])

theorem id_inj {tasks : List Task} (hn : (idsOf tasks).Nodup) :
    ∀ {u v : Task}, u ∈ tasks → v ∈ tasks → u.id = v.id → u = v := by
  induction tasks with
  | nil => intro u v hu _ _; exact absurd hu (List.not_mem_nil u)
  | cons a l ih =>
    intro u v hu hv hid
    simp only [idsOf, List.map_cons, List.nodup_cons] at hn
    rcases List.mem_cons.1 hu with rfl | hu' <;> rcases List.mem_cons.1 hv with rfl | hv'
    · rfl
    · exfalso
      apply hn.1
      have hvm : v.id ∈ List.map (fun t => t.id) l := List.mem_map.2 ⟨v, hv', rfl⟩
      rwa [← hid] at hvm
    · exfalso
      apply hn.1
      have hum : u.id ∈ List.map (fun t => t.id) l := List.mem_map.2 ⟨u, hu', rfl⟩
      rwa [hid] at hum
    · exact ih hn.2 hu' hv' hid

theorem task_map_get_self {tasks : List Task} {u : Task}
    (hn : (idsOf tasks).Nodup) (hu : u ∈ tasks) :
    task_map_get tasks u.id = some u := by
  rcases task_map_get_isSome (mem_idsOf.2 ⟨u, hu, rfl⟩) with ⟨v, hv⟩
  rcases task_map_get_mem hv with ⟨hvm, hvid⟩
  rw [hv, id_inj hn hvm hu hvid]

theorem unvisited_mono {tasks : List Task} {V V' : List String}
    (h : ∀ x ∈ V, x ∈ V') : unvisited tasks V' ≤ unvisited tasks V := by
  apply Finset.card_le_card
  apply Finset.sdiff_subset_sdiff (Finset.Subset.refl _)
  intro x hx
  rw [List.mem_toFinset] at hx ⊢
  exact h x hx

theorem unvisited_decrease {tasks : List Task} {V : List String} {id : String}
    (hid : id ∈ idsOf tasks) (hnv : id ∉ V) :
    unvisited tasks (V ++ [id]) < unvisited tasks V := by
  unfold unvisited
  have hset : (V ++ [id]).toFinset = insert id V.toFinset := by
    rw [List.toFinset_append]
    simp only [List.toFinset_cons, List.toFinset_nil, insert_emptyc_eq]
    rw [Finset.union_comm, ← Finset.insert_eq]
  rw [hset, Finset.sdiff_insert]
  apply Finset.card_erase_lt_of_mem
  rw [Finset.mem_sdiff, List.mem_toFinset, List.mem_toFinset]
  exact ⟨hid, hnv⟩

theorem VisitInv_push {tasks : List Task} {S V : List String} {R : List Task}
    {id : String} (hinv : VisitInv tasks S V R) (hnv : id ∉ V) :
    VisitInv tasks (id :: S) (V ++ [id]) R := by
  obtain ⟨h1, h2, h3, h4⟩ := hinv
  refine ⟨?_, ?_, h3, h4⟩
  · intro s hs
    rcases List.mem_cons.1 hs with rfl | hs'
    · exact List.mem_append.2 (Or.inr (List.mem_singleton.2 rfl))
    · exact List.mem_append.2 (Or.inl (h1 s hs'))
  · intro x
    rw [h2]
    constructor
    · rintro ⟨hxV, hxS⟩
      refine ⟨List.mem_append.2 (Or.inl hxV), ?_⟩
      intro hc
      rcases List.mem_cons.1 hc with rfl | hc'
      · exact hnv hxV
      · exact hxS hc'
    · rintro ⟨hxV', hxS'⟩
      rcases List.mem_append.1 hxV' with hxV | hxid
      · exact ⟨hxV, fun hc => hxS' (List.mem_cons_of_mem _ hc)⟩
      · exfalso
        rw [List.mem_singleton] at hxid
        subst hxid
        exact hxS' (List.mem_cons_self _ _)

theorem VisitInv_nil (tasks : List Task) : VisitInv tasks [] [] [] := by
  refine ⟨?_, ?_, List.nodup_nil, ?_⟩ <;> simp [idsOf]

theorem unvisited_lt (tasks : List Task) :
    unvisited tasks [] < tasks.length + 1 := by
  unfold unvisited
  have h1 : (idsOf tasks).toFinset \ ([] : List String).toFinset
      = (idsOf tasks).toFinset := by simp
  rw [h1]
  exact Nat.lt_succ_of_le (le_trans (List.toFinset_card_le _) (by simp [idsOf]))

theorem visit_succ (tasks : List Task) (fuel : ℕ) (id : String)
    (acc : List String × List Task) :
    visit tasks (fuel + 1) id acc =
      if id ∈ acc.1 then acc
      else
        match task_map_get tasks id with
        | none => (acc.1 ++ [id], acc.2)
        | some t =>
          ((visitFold tasks fuel t.dependencies (acc.1 ++ [id], acc.2)).1,
           (visitFold tasks fuel t.dependencies (acc.1 ++ [id], acc.2)).2 ++ [t]) := rfl

end IntentAnalyzer

namespace IntentAnalyzer

/-- Specification of the dependency fold of `visit`, parameterized by the
induction hypothesis for `visit` at the same fuel: the visited set grows
monotonically, stays inside the original visited ids plus the task ids,
keeps the fuel bound, preserves the stack invariant, only appends to the
result, and ends with every in-map dependency visited. -/
theorem visit_fold_spec (tasks : List Task) (fuel : ℕ) (S : List String)
    (IH : ∀ (id : String) (acc : List String × List Task),
      id ∈ idsOf tasks → unvisited tasks acc.1 < fuel → VisitInv tasks S acc.1 acc.2 →
      (∀ x ∈ acc.1, x ∈ (visit tasks fuel id acc).1) ∧
      id ∈ (visit tasks fuel id acc).1 ∧
      (∀ x ∈ (visit tasks fuel id acc).1, x ∈ acc.1 ∨ x ∈ idsOf tasks) ∧
      VisitInv tasks S (visit tasks fuel id acc).1 (visit tasks fuel id acc).2 ∧
      (∃ Δ, (visit tasks fuel id acc).2 = acc.2 ++ Δ)) :
    ∀ (ds : List String) (acc : List String × List Task),
      unvisited tasks acc.1 < fuel → VisitInv tasks S acc.1 acc.2 →
      (∀ x ∈ acc.1, x ∈ (visitFold tasks fuel ds acc).1) ∧
      (∀ x ∈ (visitFold tasks fuel ds acc).1, x ∈ acc.1 ∨ x ∈ idsOf tasks) ∧
      unvisited tasks (visitFold tasks fuel ds acc).1 < fuel ∧
      VisitInv tasks S (visitFold tasks fuel ds acc).1 (visitFold tasks fuel ds acc).2 ∧
      (∃ Δ, (visitFold tasks fuel ds acc).2 = acc.2 ++ Δ) ∧
      (∀ d ∈ ds, containsId tasks d = true → d ∈ (visitFold tasks fuel ds acc).1) := by
  intro ds
  induction ds with
  | nil =>
    intro acc hfuel hinv
    refine ⟨fun x hx => hx, fun x hx => Or.inl hx, hfuel, hinv, ⟨[], by simp [visitFold]⟩, ?_⟩
    intro d hd
    exact absurd hd (List.not_mem_nil d)
  | cons d ds ih =>
    intro acc hfuel hinv
    have hstep : visitFold tasks fuel (d :: ds) acc =
        visitFold tasks fuel ds
          (if containsId tasks d = true then visit tasks fuel d acc else acc) := rfl
    by_cases hc : containsId tasks d = true
    · obtain ⟨v1, v2, v3, v4, v5⟩ := IH d acc (containsId_iff.1 hc) hfuel hinv
      have hfuel' : unvisited tasks (visit tasks fuel d acc).1 < fuel :=
        lt_of_le_of_lt (unvisited_mono v1) hfuel
      obtain ⟨g1, g2, g3, g4, g5, g6⟩ := ih (visit tasks fuel d acc) hfuel' v4
      rw [hstep, if_pos hc]
      refine ⟨fun x hx => g1 x (v1 x hx), ?_, g3, g4, ?_, ?_⟩
      · intro x hx
        rcases g2 x hx with hx' | hx'
        · exact v3 x hx'
        · exact Or.inr hx'
      · obtain ⟨Δ₁, hΔ₁⟩ := v5
        obtain ⟨Δ₂, hΔ₂⟩ := g5
        exact ⟨Δ₁ ++ Δ₂, by rw [hΔ₂, hΔ₁, List.append_assoc]⟩
      · intro d' hd' hcd'
        rcases List.mem_cons.1 hd' with rfl | hd''
        · exact g1 d' v2
        · exact g6 d' hd'' hcd'
    · rw [hstep, if_neg hc]
      obtain ⟨g1, g2, g3, g4, g5, g6⟩ := ih acc hfuel hinv
      refine ⟨g1, g2, g3, g4, g5, ?_⟩
      intro d' hd' hcd'
      rcases List.mem_cons.1 hd' with rfl | hd''
      · exact absurd hcd' hc
      · exact g6 d' hd'' hcd'

/-- Specification of the depth-first `visit`: under the stack invariant and
with enough fuel (more than the number of unvisited ids), a visit of an
existing id marks it visited, only grows the visited set within the task
ids, preserves the invariant and only appends to the result list. -/
theorem visit_spec (tasks : List Task) :
    ∀ (fuel : ℕ) (S : List String) (id : String) (acc : List String × List Task),
      id ∈ idsOf tasks → unvisited tasks acc.1 < fuel → VisitInv tasks S acc.1 acc.2 →
      (∀ x ∈ acc.1, x ∈ (visit tasks fuel id acc).1) ∧
      id ∈ (visit tasks fuel id acc).1 ∧
      (∀ x ∈ (visit tasks fuel id acc).1, x ∈ acc.1 ∨ x ∈ idsOf tasks) ∧
      VisitInv tasks S (visit tasks fuel id acc).1 (visit tasks fuel id acc).2 ∧
      (∃ Δ, (visit tasks fuel id acc).2 = acc.2 ++ Δ) := by
  intro fuel
  induction fuel with
  | zero =>
    intro S id acc _ hfuel _
    exact absurd hfuel (Nat.not_lt_zero _)
  | succ f ihf =>
    intro S id acc hid hfuel hinv
    rw [visit_succ]
    by_cases hmem : id ∈ acc.1
    · rw [if_pos hmem]
      exact ⟨fun x hx => hx, hmem, fun x hx => Or.inl hx, hinv, ⟨[], by simp⟩⟩
    · rw [if_neg hmem]
      rcases task_map_get_isSome hid with ⟨t, hget⟩
      simp only [hget]
      have htid := task_map_get_mem hget
      have hpush : VisitInv tasks (id :: S) (acc.1 ++ [id]) acc.2 :=
        VisitInv_push hinv hmem
      have hfuel' : unvisited tasks (acc.1 ++ [id]) < f :=
        Nat.lt_of_lt_of_le (unvisited_decrease hid hmem) (Nat.lt_succ_iff.1 hfuel)
      obtain ⟨f1, f2, f3, f4, f5, f6⟩ :=
        visit_fold_spec tasks f (id :: S) (ihf (id :: S))
          t.dependencies (acc.1 ++ [id], acc.2) hfuel' hpush
      refine ⟨?_, ?_, ?_, ⟨?_, ?_, ?_, ?_⟩, ?_⟩
      · intro x hx
        exact f1 x (List.mem_append.2 (Or.inl hx))
      · exact f1 id (List.mem_append.2 (Or.inr (List.mem_singleton.2 rfl)))
      · intro x hx
        rcases f2 x hx with hx' | hx'
        · rcases List.mem_append.1 hx' with hxa | hxi
          · exact Or.inl hxa
          · rw [List.mem_singleton.1 hxi]
            exact Or.inr hid
        · exact Or.inr hx'
      · intro s hs
        exact f1 s (List.mem_append.2 (Or.inl (hinv.1 s hs)))
      · intro x
        rw [idsOf_append]
        constructor
        · intro hx
          rcases List.mem_append.1 hx with hx' | hx'
          · obtain ⟨hxF, hxS⟩ := (f4.2.1 x).1 hx'
            exact ⟨hxF, fun hc => hxS (List.mem_cons_of_mem _ hc)⟩
          · have hxid : x = id := by
              simpa [idsOf, htid.2] using hx'
            subst hxid
            refine ⟨f1 x (List.mem_append.2 (Or.inr (List.mem_singleton.2 rfl))), ?_⟩
            intro hc
            exact hmem (hinv.1 x hc)
        · rintro ⟨hxF, hxS⟩
          by_cases hxi : x = id
          · subst hxi
            apply List.mem_append.2 (Or.inr ?_)
            simp [idsOf, htid.2]
          · apply List.mem_append.2 (Or.inl ?_)
            exact (f4.2.1 x).2 ⟨hxF, fun hc => (List.mem_cons.1 hc).elim hxi hxS⟩
      · rw [idsOf_append, List.nodup_append]
        refine ⟨f4.2.2.1, by simp [idsOf], ?_⟩
        intro y hy hy'
        have hyid : y = id := by simpa [idsOf, htid.2] using hy'
        subst hyid
        obtain ⟨_, hyS⟩ := (f4.2.1 y).1 hy
        exact hyS (List.mem_cons_self _ _)
      · intro u hu
        rcases List.mem_append.1 hu with hu' | hu'
        · exact f4.2.2.2 u hu'
        · rw [List.mem_singleton.1 hu']
          rw [htid.2]
          exact hget
      · obtain ⟨Δ, hΔ⟩ := f5
        exact ⟨Δ ++ [t], by rw [hΔ, List.append_assoc]⟩

end IntentAnalyzer

namespace IntentAnalyzer

/-- Ordering counterpart of `visit_fold_spec`: if the ranks of all the fold's
in-map ids are bounded by the stack ranks, the ordering invariant of the
result list is preserved through the dependency fold. -/
theorem visit_fold_ordered (tasks : List Task) (rank : String → ℕ) (fuel : ℕ)
    (S : List String)
    (IH : ∀ (id : String) (acc : List String × List Task),
      id ∈ idsOf tasks → unvisited tasks acc.1 < fuel → VisitInv tasks S acc.1 acc.2 →
      (∀ s ∈ S, rank id ≤ rank s) → OrderedAcc tasks acc.2 →
      OrderedAcc tasks (visit tasks fuel id acc).2) :
    ∀ (ds : List String) (acc : List String × List Task),
      unvisited tasks acc.1 < fuel → VisitInv tasks S acc.1 acc.2 →
      (∀ d ∈ ds, containsId tasks d = true → ∀ s ∈ S, rank d ≤ rank s) →
      OrderedAcc tasks acc.2 →
      OrderedAcc tasks (visitFold tasks fuel ds acc).2 := by
  intro ds
  induction ds with
  | nil =>
    intro acc _ _ _ hord
    exact hord
  | cons d ds ih =>
    intro acc hfuel hinv hds hord
    have hstep : visitFold tasks fuel (d :: ds) acc =
        visitFold tasks fuel ds
          (if containsId tasks d = true then visit tasks fuel d acc else acc) := rfl
    by_cases hc : containsId tasks d = true
    · obtain ⟨v1, _, _, v4, _⟩ :=
        visit_spec tasks fuel S d acc (containsId_iff.1 hc) hfuel hinv
      have hord' := IH d acc (containsId_iff.1 hc) hfuel hinv
        (hds d (List.mem_cons_self _ _) hc) hord
      rw [hstep, if_pos hc]
      exact ih (visit tasks fuel d acc) (lt_of_le_of_lt (unvisited_mono v1) hfuel) v4
        (fun d' hd' => hds d' (List.mem_cons_of_mem _ hd')) hord'
    · rw [hstep, if_neg hc]
      exact ih acc hfuel hinv (fun d' hd' => hds d' (List.mem_cons_of_mem _ hd')) hord

/-- Ordering specification of `visit` for an acyclic dependency graph: under
the stack invariant, when the visited id's rank is at most every stack rank,
the visit preserves the ordering invariant — the task emitted for `id` lands
after all of its in-map dependencies. -/
theorem visit_ordered (tasks : List Task) (rank : String → ℕ)
    (hrank : AcyclicRank tasks rank) :
    ∀ (fuel : ℕ) (S : List String) (id : String) (acc : List String × List Task),
      id ∈ idsOf tasks → unvisited tasks acc.1 < fuel → VisitInv tasks S acc.1 acc.2 →
      (∀ s ∈ S, rank id ≤ rank s) → OrderedAcc tasks acc.2 →
      OrderedAcc tasks (visit tasks fuel id acc).2 := by
  intro fuel
  induction fuel with
  | zero =>
    intro S id acc _ hfuel
    exact absurd hfuel (Nat.not_lt_zero _)
  | succ f ihf =>
    intro S id acc hid hfuel hinv hstack hord
    rw [visit_succ]
    by_cases hmem : id ∈ acc.1
    · rw [if_pos hmem]
      exact hord
    · rw [if_neg hmem]
      rcases task_map_get_isSome hid with ⟨t, hget⟩
      simp only [hget]
      have htid := task_map_get_mem hget
      have hpush : VisitInv tasks (id :: S) (acc.1 ++ [id]) acc.2 :=
        VisitInv_push hinv hmem
      have hfuel' : unvisited tasks (acc.1 ++ [id]) < f :=
        Nat.lt_of_lt_of_le (unvisited_decrease hid hmem) (Nat.lt_succ_iff.1 hfuel)
      have hdepstack : ∀ d ∈ t.dependencies, containsId tasks d = true →
          ∀ s ∈ id :: S, rank d ≤ rank s := by
        intro d hd hcd s hs
        have hdlt : rank d < rank id := by
          have h := hrank t htid.1 d hd hcd
          rwa [htid.2] at h
        rcases List.mem_cons.1 hs with rfl | hs'
        · exact Nat.le_of_lt hdlt
        · exact Nat.le_of_lt (Nat.lt_of_lt_of_le hdlt (hstack s hs'))
      have hfold_ord := visit_fold_ordered tasks rank f (id :: S) (ihf (id :: S))
        t.dependencies (acc.1 ++ [id], acc.2) hfuel' hpush hdepstack hord
      obtain ⟨_, _, _, f4, _, f6⟩ :=
        visit_fold_spec tasks f (id :: S) (visit_spec tasks f (id :: S))
          t.dependencies (acc.1 ++ [id], acc.2) hfuel' hpush
      have key : ∀ d ∈ t.dependencies, containsId tasks d = true →
          d ∈ idsOf (visitFold tasks f t.dependencies (acc.1 ++ [id], acc.2)).2 := by
        intro d hd hcd
        have hdF := f6 d hd hcd
        have hdlt : rank d < rank id := by
          have h := hrank t htid.1 d hd hcd
          rwa [htid.2] at h
        have hdS : d ∉ id :: S := by
          intro hc2
          rcases List.mem_cons.1 hc2 with rfl | hc3
          · exact absurd hdlt (lt_irrefl _)
          · exact absurd hdlt (Nat.not_lt.2 (hstack d hc3))
        exact (f4.2.1 d).2 ⟨hdF, hdS⟩
      intro A u B heq d hd hcd
      rcases List.append_eq_append_iff.1 heq with ⟨as, hA, hub⟩ | ⟨cs, hF, hub⟩
      · cases as with
        | nil =>
          rw [List.nil_append] at hub
          injection hub with h1 h2
          rw [List.append_nil] at hA
          rw [hA]
          subst h1
          exact key d hd hcd
        | cons x xs =>
          exfalso
          rw [List.cons_append] at hub
          injection hub with _ h2
          have := congrArg List.length h2
          simp [List.length_append] at this
          omega
      · cases cs with
        | nil =>
          rw [List.nil_append] at hub
          injection hub with h1 h2
          rw [List.append_nil] at hF
          rw [← hF]
          subst h1
          exact key d hd hcd
        | cons v vs =>
          rw [List.cons_append] at hub
          injection hub with h1 h2
          subst h1
          exact hfold_ord A u vs hF d hd hcd

end IntentAnalyzer

namespace IntentAnalyzer

theorem OrderedAcc_nil (tasks : List Task) : OrderedAcc tasks [] := by
  intro A t B h d _ _
  exfalso
  have := congrArg List.length h
  simp [List.length_append] at this
  omega

/-- Invariant of the outer loop of `optimize_task_order` (visiting every task
in input order): the stack invariant holds with an empty stack, the fuel
bound is maintained, every visited task id ends up in the visited set, the
visited set grows, and stays inside the original set plus the task ids. -/
theorem optimize_fold_spec (tasks : List Task) :
    ∀ (ts : List Task) (acc : List String × List Task),
      (∀ u ∈ ts, u ∈ tasks) →
      unvisited tasks acc.1 < tasks.length + 1 →
      VisitInv tasks [] acc.1 acc.2 →
      VisitInv tasks []
        (ts.foldl (fun acc t => visit tasks (tasks.length + 1) t.id acc) acc).1
        (ts.foldl (fun acc t => visit tasks (tasks.length + 1) t.id acc) acc).2 ∧
      unvisited tasks
        (ts.foldl (fun acc t => visit tasks (tasks.length + 1) t.id acc) acc).1 <
        tasks.length + 1 ∧
      (∀ u ∈ ts,
        u.id ∈ (ts.foldl (fun acc t => visit tasks (tasks.length + 1) t.id acc) acc).1) ∧
      (∀ x ∈ acc.1,
        x ∈ (ts.foldl (fun acc t => visit tasks (tasks.length + 1) t.id acc) acc).1) ∧
      (∀ x ∈ (ts.foldl (fun acc t => visit tasks (tasks.length + 1) t.id acc) acc).1,
        x ∈ acc.1 ∨ x ∈ idsOf tasks) := by
  intro ts
  induction ts with
  | nil =>
    intro acc _ hfuel hinv
    exact ⟨hinv, hfuel, fun u hu => absurd hu (List.not_mem_nil u),
      fun x hx => hx, fun x hx => Or.inl hx⟩
  | cons u ts ih =>
    intro acc hts hfuel hinv
    have hstep : (u :: ts).foldl (fun acc t => visit tasks (tasks.length + 1) t.id acc) acc =
        ts.foldl (fun acc t => visit tasks (tasks.length + 1) t.id acc)
          (visit tasks (tasks.length + 1) u.id acc) := rfl
    have huid : u.id ∈ idsOf tasks := mem_idsOf.2 ⟨u, hts u (List.mem_cons_self _ _), rfl⟩
    obtain ⟨v1, v2, v3, v4, _⟩ :=
      visit_spec tasks (tasks.length + 1) [] u.id acc huid hfuel hinv
    have hfuel' : unvisited tasks (visit tasks (tasks.length + 1) u.id acc).1 <
        tasks.length + 1 := lt_of_le_of_lt (unvisited_mono v1) hfuel
    obtain ⟨g1, g2, g3, g4, g5⟩ := ih (visit tasks (tasks.length + 1) u.id acc)
      (fun u' hu' => hts u' (List.mem_cons_of_mem _ hu')) hfuel' v4
    rw [hstep]
    refine ⟨g1, g2, ?_, fun x hx => g4 x (v1 x hx), ?_⟩
    · intro u' hu'
      rcases List.mem_cons.1 hu' with rfl | hu''
      · exact g4 _ v2
      · exact g3 u' hu''
    · intro x hx
      rcases g5 x hx with hx' | hx'
      · exact v3 x hx'
      · exact Or.inr hx'

/-- Ordering invariant of the outer loop of `optimize_task_order`. -/
theorem optimize_fold_ordered (tasks : List Task) (rank : String → ℕ)
    (hrank : AcyclicRank tasks rank) :
    ∀ (ts : List Task) (acc : List String × List Task),
      (∀ u ∈ ts, u ∈ tasks) →
      unvisited tasks acc.1 < tasks.length + 1 →
      VisitInv tasks [] acc.1 acc.2 →
      OrderedAcc tasks acc.2 →
      OrderedAcc tasks
        (ts.foldl (fun acc t => visit tasks (tasks.length + 1) t.id acc) acc).2 := by
  intro ts
  induction ts with
  | nil =>
    intro acc _ _ _ hord
    exact hord
  | cons u ts ih =>
    intro acc hts hfuel hinv hord
    have hstep : (u :: ts).foldl (fun acc t => visit tasks (tasks.length + 1) t.id acc) acc =
        ts.foldl (fun acc t => visit tasks (tasks.length + 1) t.id acc)
          (visit tasks (tasks.length + 1) u.id acc) := rfl
    have huid : u.id ∈ idsOf tasks := mem_idsOf.2 ⟨u, hts u (List.mem_cons_self _ _), rfl⟩
    obtain ⟨v1, _, _, v4, _⟩ :=
      visit_spec tasks (tasks.length + 1) [] u.id acc huid hfuel hinv
    have hord' := visit_ordered tasks rank hrank (tasks.length + 1) [] u.id acc huid hfuel
      hinv (fun s hs => absurd hs (List.not_mem_nil s)) hord
    rw [hstep]
    exact ih (visit tasks (tasks.length + 1) u.id acc)
      (fun u' hu' => hts u' (List.mem_cons_of_mem _ hu'))
      (lt_of_le_of_lt (unvisited_mono v1) hfuel) v4 hord'

/-- On distinct task ids, the topological pass outputs a permutation of its
input: each input task exactly once, whatever the dependency graph. -/
theorem optimize_perm (tasks : List Task) (hn : (idsOf tasks).Nodup) :
    (optimize_task_order tasks).Perm tasks := by
  obtain ⟨f1, _, f3, _, f5⟩ := optimize_fold_spec tasks tasks ([], [])
    (fun _ hu => hu) (unvisited_lt tasks) (VisitInv_nil tasks)
  have hFn : (optimize_task_order tasks).Nodup :=
    List.Nodup.of_map _ (by simpa [idsOf] using f1.2.2.1)
  have hTn : tasks.Nodup := List.Nodup.of_map _ (by simpa [idsOf] using hn)
  rw [List.perm_ext_iff_of_nodup hFn hTn]
  intro a
  constructor
  · intro ha
    exact (task_map_get_mem (f1.2.2.2 a ha)).1
  · intro ha
    have hmm : a.id ∈ idsOf
        ((tasks.foldl (fun acc t => visit tasks (tasks.length + 1) t.id acc) ([], [])).2) :=
      (f1.2.1 a.id).2 ⟨f3 a ha, List.not_mem_nil _⟩
    rcases mem_idsOf.1 hmm with ⟨v, hvF, hvid⟩
    have hv := f1.2.2.2 v hvF
    rw [hvid, task_map_get_self hn ha] at hv
    injection hv with h
    rw [h]
    exact hvF

/-- A list satisfying the prefix ordering invariant, whose ids all belong to
the reference breakdown, respects dependencies positionally. -/
theorem ordered_depsRespected {tasks res : List Task}
    (hord : OrderedAcc tasks res)
    (hids : ∀ d, d ∈ idsOf res → containsId tasks d = true) :
    DepsRespected res := by
  intro i d hd hdres
  have hcd := hids d hdres
  have hsplit : res = res.take i.1 ++ res.get i :: res.drop (i.1 + 1) := by
    conv_lhs => rw [← List.take_append_drop i.1 res]
    rw [List.drop_eq_getElem_cons i.2, List.get_eq_getElem]
  have hdA : d ∈ idsOf (res.take i.1) := hord _ _ _ hsplit d hd hcd
  rcases mem_idsOf.1 hdA with ⟨v, hv, hvid⟩
  rcases List.mem_iff_getElem.1 hv with ⟨j, hj, hjv⟩
  have hjlt : j < i.1 := by
    rw [List.length_take] at hj
    omega
  have hjres : j < res.length := lt_trans hjlt i.2
  refine ⟨⟨j, hjres⟩, hjlt, ?_⟩
  show (res.get ⟨j, hjres⟩).id = d
  rw [List.get_eq_getElem]
  rw [List.getElem_take] at hjv
  rw [hjv, hvid]

/-- The topological pass's output satisfies the prefix ordering invariant on
an acyclic dependency graph. -/
theorem optimize_ordered (tasks : List Task) (rank : String → ℕ)
    (hrank : AcyclicRank tasks rank) :
    OrderedAcc tasks (optimize_task_order tasks) :=
  optimize_fold_ordered tasks rank hrank tasks ([], []) (fun _ hu => hu)
    (unvisited_lt tasks) (VisitInv_nil tasks) (OrderedAcc_nil tasks)

/-- On an acyclic dependency graph (rank-witnessed) with distinct ids, the
output of the topological pass respects dependencies. -/
theorem optimize_depsRespected (tasks : List Task) (rank : String → ℕ)
    (hrank : AcyclicRank tasks rank) :
    DepsRespected (optimize_task_order tasks) := by
  apply ordered_depsRespected (optimize_ordered tasks rank hrank)
  intro d hd
  obtain ⟨f1, _, _, _, f5⟩ := optimize_fold_spec tasks tasks ([], [])
    (fun _ hu => hu) (unvisited_lt tasks) (VisitInv_nil tasks)
  have hdF := ((f1.2.1 d).1 hd).1
  rcases f5 d hdF with h | h
  · exact absurd h (List.not_mem_nil d)
  · exact containsId_iff.2 h

end IntentAnalyzer

/-- **C4** (amended): the depth-first topological pass
`IntentAnalyzer._optimize_task_order` is cycle-tolerant and, on a breakdown
with pairwise-distinct task ids, outputs a permutation of its input — each
input task exactly once, whether or not the dependency graph has a cycle —
and whenever the graph is acyclic (witnessed by a rank function under which
every in-breakdown dependency ranks strictly below its dependent) the output
respects dependencies: every dependency id present in the breakdown appears
at an earlier position than its dependent.  `IntentAnalyzer.analyze_intent`
returns exactly this optimized order.  The claim as stated — *every*
breakdown returned by `analyze_intent` is dependency-ordered — fails for the
deployed `RobustIntentAnalyzer.analyze_intent`, which returns the parsed
tasks without running the topological pass (`C4_counterexample`). -/
theorem C4_topological_pass :
    ∀ tasks : List Task, (IntentAnalyzer.idsOf tasks).Nodup →
      (IntentAnalyzer.optimize_task_order tasks).Perm tasks ∧
      (∀ rank : String → ℕ, IntentAnalyzer.AcyclicRank tasks rank →
        IntentAnalyzer.DepsRespected (IntentAnalyzer.optimize_task_order tasks)) ∧
      (∀ (o : IntentAnalyzer.Oracle) (text : String) (now : ℚ)
        (r : IntentAnalysisResult),
        o.generated_tasks = some tasks →
        IntentAnalyzer.analyze_intent o text now = some r →
        r.tasks = IntentAnalyzer.optimize_task_order tasks) := by
  intro tasks hn
  refine ⟨IntentAnalyzer.optimize_perm tasks hn,
    fun rank hrank => IntentAnalyzer.optimize_depsRespected tasks rank hrank, ?_⟩
  intro o text now r hgen h
  unfold IntentAnalyzer.analyze_intent at h
  simp only [hgen] at h
  rw [(mk?_confidence h).1]

/-- C4 counterexample to the claim as stated: the deployed
`RobustIntentAnalyzer.analyze_intent` never runs the topological pass.  When
the model's JSON lists task `a` (depending on `b`) before task `b`, the
returned breakdown keeps that order, so the dependency `b` of the first task
appears *after* it — the breakdown is not dependency-ordered even though it
is acyclic. -/
theorem C4_counterexample :
    ("sort the report rows" ≠ "") ∧
    IntentAnalyzer.idsOf
      (RobustIntentAnalyzer.analyze_intent
        ⟨true, some (.obj [("tasks", .arr
            [.obj [("id", .str "a"), ("dependencies", .arr [.str "b"])],
             .obj [("id", .str "b")]]), ("confidence", .num 1)])⟩
        (fun i => "uuid-" ++ toString i) IntentCache.init ThoughtStream.State.empty
        "sort the report rows" [] none 0).result.tasks = ["a", "b"] ∧
    ¬ IntentAnalyzer.DepsRespected
      (RobustIntentAnalyzer.analyze_intent
        ⟨true, some (.obj [("tasks", .arr
            [.obj [("id", .str "a"), ("dependencies", .arr [.str "b"])],
             .obj [("id", .str "b")]]), ("confidence", .num 1)])⟩
        (fun i => "uuid-" ++ toString i) IntentCache.init ThoughtStream.State.empty
        "sort the report rows" [] none 0).result.tasks := by
  refine ⟨by decide, by decide, by decide⟩

/-- C4 witness: on the two-task breakdown `A` (depending on `B`) then `B`,
the pass returns a permutation of the input that respects dependencies. -/
theorem C4_topological_pass_witness :
    (IntentAnalyzer.idsOf
      [⟨"A", "Task A", "", .backend, .medium, .moderate, some 4, ["B"], [], []⟩,
       ⟨"B", "Task B", "", .backend, .medium, .moderate, some 4, [], [], []⟩]).Nodup ∧
    (IntentAnalyzer.optimize_task_order
      [⟨"A", "Task A", "", .backend, .medium, .moderate, some 4, ["B"], [], []⟩,
       ⟨"B", "Task B", "", .backend, .medium, .moderate, some 4, [], [], []⟩]).Perm
      [⟨"A", "Task A", "", .backend, .medium, .moderate, some 4, ["B"], [], []⟩,
       ⟨"B", "Task B", "", .backend, .medium, .moderate, some 4, [], [], []⟩] ∧
    IntentAnalyzer.AcyclicRank
      [⟨"A", "Task A", "", .backend, .medium, .moderate, some 4, ["B"], [], []⟩,
       ⟨"B", "Task B", "", .backend, .medium, .moderate, some 4, [], [], []⟩]
      (fun s => if s = "A" then 1 else 0) ∧
    IntentAnalyzer.DepsRespected
      (IntentAnalyzer.optimize_task_order
        [⟨"A", "Task A", "", .backend, .medium, .moderate, some 4, ["B"], [], []⟩,
         ⟨"B", "Task B", "", .backend, .medium, .moderate, some 4, [], [], []⟩]) :=
  ⟨by decide,
   (C4_topological_pass
     [⟨"A", "Task A", "", .backend, .medium, .moderate, some 4, ["B"], [], []⟩,
      ⟨"B", "Task B", "", .backend, .medium, .moderate, some 4, [], [], []⟩]
     (by decide)).1,
   by decide,
   (C4_topological_pass
     [⟨"A", "Task A", "", .backend, .medium, .moderate, some 4, ["B"], [], []⟩,
      ⟨"B", "Task B", "", .backend, .medium, .moderate, some 4, [], [], []⟩]
     (by decide)).2.1 (fun s => if s = "A" then 1 else 0) (by decide)⟩

end IntentProc
